import Mathlib

/-!
# Verification of the `calendar_manager` core

A shallow embedding of `calendar_manager/calendar.py` (the `Event` record,
the `EventFilter` predicate, the `Calendar` store contract with its default
`has_event`, and the `sync_from` reconciliation algorithm) together with the
read-only `StaticCalendar` of `calendar_manager/static.py`, and theorems
settling the specification claims about them.

Modelling conventions:

* Timezone-aware `datetime.datetime` values are modelled at minute
  granularity as a wall-clock minute count since an arbitrary epoch
  midnight plus a UTC offset in minutes (`DateTime`).  Python compares
  aware datetimes by UTC instant, which is `wall - tz`; `dt + timedelta`
  adds to the wall clock and keeps the offset; `dt.replace(hour=h,
  minute=m)` keeps the calendar day (the wall minutes floored to a
  multiple of 1440) and the offset.  `datetime.datetime(y, m, d,
  tzinfo=tz)` built from the components of an aware `dt` is the midnight
  of `dt`'s day in `dt`'s offset, i.e. the floor of its wall minutes to a
  day boundary.  Day 0 of the epoch is declared to be a Thursday (as for
  the Unix epoch), fixing the weekday of every wall-clock day.
* `datetime.timedelta` values become an `Int` of minutes.  A zero
  `timedelta` is falsy in Python, which `sync_from`'s `if config.start_offset:`
  checks observe; the embedding reproduces that check.
* Python `str` ids that may be `None` become `Option String`; the
  `metadata` dict becomes an association list `List (String × Option
  String)` whose `.get(k)` is `getMeta` (missing key and a stored `None`
  both yield `none`, exactly as `dict.get` conflates them).
* The destination store behind the abstract `Calendar` contract is
  modelled as `Store`: a list of events plus a counter issuing fresh
  opaque identifiers (`idOfNat`) on `add_event`, with `events` applying
  an `EventFilter` in memory (the contract requires filter semantics to be
  identical whether or not a backend pushes the query down).  Operations
  that Python would fault on (a `get_event` miss) make `sync_from` return
  `none`, matching the fail-fast propagation the spec describes.
* `sync_from` additionally returns the list of mutating calls it issued
  (`Op`), so claims about "no creates / no deletes / no-op updates" are
  statements about that trace.  Both evaluations of `datetime.utcnow()`
  in the window defaults are modelled by one `now` parameter (they differ
  by microseconds, below the model's minute granularity).
-/

namespace CalendarManager

/-- An aware `datetime.datetime` at minute granularity: `wall` is the
wall-clock minute count since the epoch midnight, `tz` the UTC offset in
minutes carried by its `tzinfo`. -/
structure DateTime where
  wall : Int
  tz : Int
deriving DecidableEq, Repr

/-- The UTC instant of an aware datetime; Python compares aware datetimes
by this quantity. -/
def DateTime.instant (d : DateTime) : Int := d.wall - d.tz

/-- `self <= other` on aware datetimes (UTC instant comparison). -/
def DateTime.le (a b : DateTime) : Bool := decide (a.instant ≤ b.instant)

/-- `self == other` on aware datetimes (UTC instant equality). -/
def DateTime.deq (a b : DateTime) : Bool := decide (a.instant = b.instant)

/-- The calendar day of the datetime in its own timezone (wall minutes
floored to days). -/
def DateTime.dateOf (d : DateTime) : Int := d.wall / 1440

/-- The time-of-day component (minutes past midnight) in the datetime's own
timezone. -/
def DateTime.timeOfDay (d : DateTime) : Int := d.wall % 1440

/-- `datetime.datetime(dt.year, dt.month, dt.day, tzinfo=dt.tzinfo)`:
midnight of the datetime's own calendar day, same timezone. -/
def DateTime.floorToDay (d : DateTime) : DateTime :=
  { wall := d.wall / 1440 * 1440, tz := d.tz }

/-- A `datetime.time` as validated by Python: hours 0–23, minutes 0–59. -/
structure Time where
  hour : Fin 24
  minute : Fin 60
deriving DecidableEq, Repr

/-- `dt.replace(hour=t.hour, minute=t.minute)`: keep the calendar day and
the timezone, replace the time of day. -/
def DateTime.replaceTime (d : DateTime) (t : Time) : DateTime :=
  { wall := d.wall / 1440 * 1440 + ((t.hour.val : Int) * 60 + (t.minute.val : Int)),
    tz := d.tz }

/-- `dt + timedelta`: aware datetime plus a duration shifts the wall clock
and keeps the tzinfo. -/
def DateTime.addMinutes (d : DateTime) (m : Int) : DateTime :=
  { wall := d.wall + m, tz := d.tz }

/-- `Weekday = IntEnum('Weekdays', 'sunday monday ... saturday', start=0)`:
`sunday` carries ordinal 0 and is therefore falsy as an `IntEnum` member. -/
inductive Weekday
  | sunday | monday | tuesday | wednesday | thursday | friday | saturday
deriving DecidableEq, Repr

/-- The weekday of a wall-clock day number, with epoch day 0 a Thursday. -/
def weekdayOfDay (day : Int) : Weekday :=
  match ((day + 4) % 7).toNat with
  | 0 => .sunday
  | 1 => .monday
  | 2 => .tuesday
  | 3 => .wednesday
  | 4 => .thursday
  | 5 => .friday
  | _ => .saturday

/-- The weekday on which an aware datetime falls (in its own timezone). -/
def DateTime.weekdayOf (d : DateTime) : Weekday := weekdayOfDay d.dateOf

/-- `event.metadata.get(k)`: association-list lookup; a missing key and a
stored `None` value both come back as `none`, as with `dict.get`. -/
def getMeta (m : List (String × Option String)) (k : String) : Option String :=
  match m.find? (fun p => decide (p.1 = k)) with
  | some p => p.2
  | none => none

/-- The `Event` dataclass.  `id` is `none` for a not-yet-persisted
instance (`details["id"] = None` in `sync_from`); `end_` stands for the
Python field `end`, which is a reserved word in Lean. -/
structure Event where
  id : Option String
  title : String
  start : DateTime
  end_ : DateTime
  all_day : Bool := false
  description : String := ""
  metadata : List (String × Option String) := []
deriving DecidableEq, Repr

/-- `Event.matches`: equality on the `(title, start, end)` triple, with
datetimes compared as Python does (by instant); `all_day`, `description`
and `metadata` are ignored. -/
def Event.matches (e other : Event) : Bool :=
  decide (e.title = other.title) && e.start.deq other.start && e.end_.deq other.end_

/-- The field patch `sync_from` computes: `dict(event)` minus the `id`
key, i.e. every remaining `Event` field. -/
structure Details where
  title : String
  start : DateTime
  end_ : DateTime
  all_day : Bool
  description : String
  metadata : List (String × Option String)
deriving DecidableEq, Repr

/-- The non-`id` fields of an event, as a `Details` patch. -/
def Event.fieldsOf (e : Event) : Details :=
  ⟨e.title, e.start, e.end_, e.all_day, e.description, e.metadata⟩

/-- `event.update(**details)`: reflective per-field assignment of every
key of the patch; the `id` field is not in the patch and is kept. -/
def Event.update (e : Event) (d : Details) : Event :=
  ⟨e.id, d.title, d.start, d.end_, d.all_day, d.description, d.metadata⟩

/-- An `Event` freshly constructed from a patch with `id=None`
(`details["id"] = None` followed by `create_event(**details)`). -/
def Event.ofDetails (d : Details) : Event :=
  ⟨none, d.title, d.start, d.end_, d.all_day, d.description, d.metadata⟩

/-- The `EventFilter` dataclass; every field defaults to `None`. -/
structure EventFilter where
  src_calendar : Option String := none
  start : Option DateTime := none
  end_ : Option DateTime := none
  weekday : Option Weekday := none
deriving DecidableEq, Repr

/-- The weekday conjunct of `EventFilter.__call__`:
`(not self.weekday or self.weekday == event.start.weekday)`.
`self.weekday` is falsy when it is `None` or the ordinal-0 member
`sunday`, skipping the constraint.  Otherwise the code compares the
`IntEnum` member against `event.start.weekday` — the bound method object
itself, never invoked — and an `IntEnum` never equals a method object, so
the conjunct is `False` for every event. -/
def weekdayCheck : Option Weekday → Bool
  | none => true
  | some .sunday => true
  | some _ => false

/-- `EventFilter.__call__(event)`: the conjunction of the four bound
checks.  A `None` `start`/`end` is falsy (aware datetimes themselves are
always truthy) and skips its bound; `src_calendar` is falsy when `None`
or the empty string; the weekday conjunct is `weekdayCheck`. -/
def EventFilter.call (f : EventFilter) (e : Event) : Bool :=
  (match f.start with
   | none => true
   | some s => s.le e.start) &&
  (match f.end_ with
   | none => true
   | some t => e.end_.le t) &&
  weekdayCheck f.weekday &&
  (match f.src_calendar with
   | none => true
   | some c => if c = "" then true else decide (getMeta e.metadata "src_calendar" = some c))

/-- The `SyncConfig` dataclass. -/
structure SyncConfig where
  src_calendar : String
  title : Option String := none
  sync_start : Option DateTime := none
  start_time : Option Time := none
  start_offset : Option Int := none
  sync_end : Option DateTime := none
  end_time : Option Time := none
  end_offset : Option Int := none
deriving DecidableEq, Repr

/-- The patch computed for one source event in `sync_from`'s loop: all
source fields except `id`; `config.title` overrides the title when truthy
(non-`None`, non-empty); `config.start_time` replaces the time of day of
the source `start`; `config.start_offset` is then added when truthy
(non-`None`, non-zero — `timedelta(0)` is falsy); likewise for `end`; and
`metadata` is replaced by exactly
`{src_calendar: config.src_calendar, src_id: event.id}`. -/
def computeDetails (cfg : SyncConfig) (e : Event) : Details :=
  let title := match cfg.title with
    | some t => if t = "" then e.title else t
    | none => e.title
  let start1 := match cfg.start_time with
    | some t => e.start.replaceTime t
    | none => e.start
  let start2 := match cfg.start_offset with
    | some d => if d = 0 then start1 else start1.addMinutes d
    | none => start1
  let end1 := match cfg.end_time with
    | some t => e.end_.replaceTime t
    | none => e.end_
  let end2 := match cfg.end_offset with
    | some d => if d = 0 then end1 else end1.addMinutes d
    | none => end1
  { title := title, start := start2, end_ := end2, all_day := e.all_day,
    description := e.description,
    metadata := [("src_calendar", some cfg.src_calendar), ("src_id", e.id)] }

/-- The opaque identifier the destination store assigns to the `n`-th
persisted record; distinct counters give distinct identifiers. -/
def idOfNat (n : Nat) : String := String.mk (List.replicate n 'e')

/-- The destination calendar store behind the `Calendar` contract: its
backing collection of events plus the fresh-identifier counter. -/
structure Store where
  items : List Event
  nextId : Nat
deriving DecidableEq, Repr

/-- `events(event_filter)`: the store's events with the filter applied
in memory (an absent filter means a default `EventFilter()`, which passes
everything). -/
def Store.events (s : Store) (f : Option EventFilter) : List Event :=
  match f with
  | none => s.items.filter (EventFilter.call {})
  | some ef => s.items.filter ef.call

/-- `get_event(id)`: the stored record with that identifier, or `none`
for the NotFound fault. -/
def Store.get_event (s : Store) (i : Option String) : Option Event :=
  s.items.find? (fun e => decide (e.id = i))

/-- `add_event(event)`: persist a record, assigning it the next fresh
store identifier; returns the updated store and the persisted record
(Python mutates the passed event's `id` in place). -/
def Store.add_event (s : Store) (e : Event) : Store × Event :=
  let e' := { e with id := some (idOfNat s.nextId) }
  ({ items := s.items ++ [e'], nextId := s.nextId + 1 }, e')

/-- `update_event(event)`: persist in-place changes to an
already-identified record (replace the stored record with that id). -/
def Store.update_event (s : Store) (e : Event) : Store :=
  { s with items := s.items.map (fun x => if x.id = e.id then e else x) }

/-- `delete_event(id)`: remove the record with that identifier. -/
def Store.delete_event (s : Store) (i : Option String) : Store :=
  { s with items := s.items.filter (fun x => decide (x.id ≠ i)) }

/-- `create_event(**details)`: construct a new, not-yet-persisted event
from the patch (no store mutation). -/
def Store.create_event (_s : Store) (d : Details) : Event := Event.ofDetails d

/-- `has_event(search)`: query the store for the calendar day containing
`search.start` — `datetime(y, m, d, tzinfo=search.start.tzinfo)` through
its `replace(hour=23, minute=59)` — and report whether any returned event
`matches` the search by `(title, start, end)`. -/
def Store.has_event (s : Store) (search : Event) : Bool :=
  let ds := search.start.floorToDay
  let de := ds.replaceTime ⟨23, 59⟩
  (s.events (some { start := some ds, end_ := some de })).any (fun e => e.matches search)

/-- Well-formedness of a store state: stored identifiers are distinct,
and no stored record carries an identifier the counter has not issued
yet (so freshly assigned identifiers never collide). -/
def Store.WF (s : Store) : Prop :=
  (s.items.map Event.id).Nodup ∧
  ∀ k, s.nextId ≤ k → some (idOfNat k) ∉ s.items.map Event.id

/-- One mutating call issued by `sync_from`, in order: a persisted
creation, an update (recording the record before and after the patch), a
deletion by destination identifier, or a creation skipped because
`has_event` reported an exact duplicate. -/
inductive Op
  | add (e : Event)
  | update (before after : Event)
  | delete (id : Option String)
  | skip (e : Event)
deriving DecidableEq, Repr

/-- Whether an op is the `has_event`-guard skip of an insertion. -/
def Op.isSkip : Op → Bool
  | .skip _ => true
  | _ => false

/-- Association-list lookup, keyed like the Python dict `existing_ids`
(keys are `metadata.get("src_id")` values, so `None` is a possible key
and `None == None` holds, as in Python). -/
def alookup (k : Option String) : List (Option String × Option String) → Option (Option String)
  | [] => none
  | p :: rest => if p.1 = k then some p.2 else alookup k rest

/-- `existing_ids.pop(k)` guarded by `k in existing_ids`: the stored
value and the dict without that key, or `none` when the key is absent. -/
def popKey (k : Option String) :
    List (Option String × Option String) →
    Option (Option String × List (Option String × Option String))
  | [] => none
  | p :: rest =>
    if p.1 = k then some (p.2, rest)
    else
      match popKey k rest with
      | some (v, rest') => some (v, p :: rest')
      | none => none

/-- Step 1 of `sync_from`: fold over the filtered destination events,
mapping each first-seen `metadata.get("src_id")` to the destination
identifier and recording every later-seen identifier as a duplicate. -/
def buildIndex (m : List (Option String × Option String)) (d : List (Option String)) :
    List Event → List (Option String × Option String) × List (Option String)
  | [] => (m, d)
  | e :: rest =>
    match alookup (getMeta e.metadata "src_id") m with
    | some _ => buildIndex m (d ++ [e.id]) rest
    | none => buildIndex (m ++ [(getMeta e.metadata "src_id", e.id)]) d rest

/-- Steps 2–3 of `sync_from`: for each source event compute the patch;
if its identifier is a key of the index, pop the entry, fetch the
destination record, apply the patch and persist it via `update_event`;
otherwise construct a fresh record via `create_event` and persist it via
`add_event` unless `has_event` reports an exact duplicate.  A
`get_event` miss aborts the run (`none`), as the Python fault would. -/
def processSrc (cfg : SyncConfig) :
    List Event → Store → List (Option String × Option String) → List Op →
    Option (Store × List (Option String × Option String) × List Op)
  | [], st, m, ops => some (st, m, ops)
  | e :: rest, st, m, ops =>
    let d := computeDetails cfg e
    match popKey e.id m with
    | some (destId, m') =>
      match st.get_event destId with
      | some ev =>
        let ev' := ev.update d
        processSrc cfg rest (st.update_event ev') m' (ops ++ [.update ev ev'])
      | none => none
    | none =>
      let created := Event.ofDetails d
      if st.has_event created then
        processSrc cfg rest st m (ops ++ [.skip created])
      else
        let (st', e') := st.add_event created
        processSrc cfg rest st' m (ops ++ [.add e'])

/-- `config.sync_start if config.sync_start else datetime.utcnow().astimezone()`
(aware datetimes are always truthy, so this is a `None` check). -/
def syncWindowStart (cfg : SyncConfig) (now : DateTime) : DateTime :=
  match cfg.sync_start with
  | some s => s
  | none => now

/-- `config.sync_end if config.sync_end else utcnow().astimezone() + timedelta(days=30)`. -/
def syncWindowEnd (cfg : SyncConfig) (now : DateTime) : DateTime :=
  match cfg.sync_end with
  | some e => e
  | none => now.addMinutes (30 * 1440)

/-- The Step-1 query filter: the window `[sync_start or now, sync_end or
now + 30 days]` plus the provenance tag.  Both `datetime.utcnow()`
evaluations are represented by the single `now` argument. -/
def syncFilter (cfg : SyncConfig) (now : DateTime) : EventFilter :=
  { start := some (syncWindowStart cfg now),
    end_ := some (syncWindowEnd cfg now),
    src_calendar := some cfg.src_calendar }

/-- `Calendar.sync_from(src_events, config)` against a `Store`
destination, with `now` standing for `datetime.utcnow().astimezone()`:
index the previously synced window (Step 1), process every source event
(Steps 2–3), then delete the unconsumed index entries (orphans) and the
recorded duplicates (Step 4).  Returns the final store and the ordered
trace of mutating calls, or `none` when a store fault aborted the run. -/
def sync_from (st : Store) (src : List Event) (cfg : SyncConfig) (now : DateTime) :
    Option (Store × List Op) :=
  let idx := buildIndex [] [] (st.events (some (syncFilter cfg now)))
  match processSrc cfg src st idx.1 [] with
  | none => none
  | some (st1, mrest, ops) =>
    let st2 := mrest.foldl (fun s kv => s.delete_event kv.2) st1
    let st3 := idx.2.foldl (fun s i => s.delete_event i) st2
    some (st3, ops ++ mrest.map (fun kv => Op.delete kv.2) ++ idx.2.map Op.delete)

/-- The Python exception classes relevant to the read-only store:
`NotImplementedError` would be the explicit unsupported-operation signal;
`TypeError` is what actually escapes `raise NotImplemented(...)`, since
the `NotImplemented` constant is not callable. -/
inductive PyError
  | typeError (msg : String)
  | notImplementedError (msg : String)
  | keyError (k : Option String)
deriving DecidableEq, Repr

/-- `StaticCalendar`: a read-only store over a dict from event id to
event, as built by its constructor. -/
structure StaticCalendar where
  id : String
  eventsById : List (Option String × Event)
deriving DecidableEq, Repr

/-- `StaticCalendar.events(event_filter)`: filter over the dict values. -/
def StaticCalendar.events (c : StaticCalendar) (f : Option EventFilter) : List Event :=
  match f with
  | none => (c.eventsById.map Prod.snd).filter (EventFilter.call {})
  | some ef => (c.eventsById.map Prod.snd).filter ef.call

/-- `StaticCalendar.get_event(id)`: dict indexing; a miss raises
`KeyError`. -/
def StaticCalendar.get_event (c : StaticCalendar) (i : Option String) : Except PyError Event :=
  match c.eventsById.find? (fun p => decide (p.1 = i)) with
  | some p => .ok p.2
  | none => .error (.keyError i)

/-- `StaticCalendar.add_event`: `raise NotImplemented("StaticCalendars
cannot be modified")` — calling the `NotImplemented` constant raises
`TypeError`, so that is the exception that escapes; the store value is
untouched (the function does not return a modified store). -/
def StaticCalendar.add_event (_c : StaticCalendar) (_e : Event) : Except PyError Unit :=
  .error (.typeError "NotImplementedType object is not callable")

/-- `StaticCalendar.create_event`: same `raise NotImplemented(...)` slip. -/
def StaticCalendar.create_event (_c : StaticCalendar) (_d : Details) : Except PyError Event :=
  .error (.typeError "NotImplementedType object is not callable")

/-- `StaticCalendar.update_event`: same `raise NotImplemented(...)` slip. -/
def StaticCalendar.update_event (_c : StaticCalendar) (_e : Event) : Except PyError Unit :=
  .error (.typeError "NotImplementedType object is not callable")

/-- `StaticCalendar.delete_event`: same `raise NotImplemented(...)` slip. -/
def StaticCalendar.delete_event (_c : StaticCalendar) (_i : Option String) : Except PyError Unit :=
  .error (.typeError "NotImplementedType object is not callable")

/-- The filter predicate as the specification words it (its ideal
semantics, for comparison with the implemented `EventFilter.call`): an
event passes iff every individually-specified bound holds, where a set
`weekday` requires the event's `start` to fall on that weekday and a set
`src_calendar` requires the provenance tag to equal it. -/
def specEventFilterPass (f : EventFilter) (e : Event) : Bool :=
  (match f.start with
   | none => true
   | some s => s.le e.start) &&
  (match f.end_ with
   | none => true
   | some t => e.end_.le t) &&
  (match f.weekday with
   | none => true
   | some w => decide (e.start.weekdayOf = w)) &&
  (match f.src_calendar with
   | none => true
   | some c => decide (getMeta e.metadata "src_calendar" = some c))

/-! ### Concrete instances used by witnesses and counterexamples -/

/-- A filter constraining only the weekday, to Monday. -/
def mondayFilter : EventFilter := { weekday := some .monday }

/-- An event whose `start` falls on a Monday (epoch day 4, with epoch day
0 a Thursday), at 10:00 with a one-hour duration, UTC. -/
def mondayEvent : Event :=
  { id := some "m", title := "Standup", start := ⟨4 * 1440 + 600, 0⟩, end_ := ⟨4 * 1440 + 660, 0⟩ }

/-- The configuration of the spec's example 4: `start_time = 10:00`,
`start_offset = +30` minutes. -/
def exampleCfg : SyncConfig :=
  { src_calendar := "work", start_time := some ⟨10, 0⟩, start_offset := some 30 }

/-- A source event starting 08:00 on epoch day 0 (the spec example's
`2024-03-01T08:00`, with the date abstracted to a wall-clock day). -/
def exampleSrcEvent : Event :=
  { id := some "abc", title := "Standup", start := ⟨480, 0⟩, end_ := ⟨540, 0⟩ }

/-- A sync configuration with explicit window day 0 – day 100 and the
provenance tag `work`, used by the concrete scenarios below. -/
def winCfg : SyncConfig :=
  { src_calendar := "work", sync_start := some ⟨0, 0⟩, sync_end := some ⟨144000, 0⟩ }

/-- A fixed "now" for runs whose windows are explicit anyway. -/
def now0 : DateTime := ⟨0, 0⟩

/-- An empty destination store. -/
def emptyStore : Store := ⟨[], 0⟩

/-- A previously synced destination record whose source id `gone` no
longer appears in any source sequence. -/
def orphanRecord : Event :=
  { id := some (idOfNat 0), title := "Old", start := ⟨600, 0⟩, end_ := ⟨660, 0⟩,
    metadata := [("src_calendar", some "work"), ("src_id", some "gone")] }

/-- A destination store holding only `orphanRecord`. -/
def orphanStore : Store := ⟨[orphanRecord], 1⟩

/-- First of two destination records sharing `(src_calendar, src_id)`. -/
def dupRecordA : Event :=
  { id := some (idOfNat 0), title := "T", start := ⟨600, 0⟩, end_ := ⟨660, 0⟩,
    metadata := [("src_calendar", some "work"), ("src_id", some "d1")] }

/-- Second destination record with the same `(src_calendar, src_id)`. -/
def dupRecordB : Event :=
  { id := some (idOfNat 1), title := "T", start := ⟨600, 0⟩, end_ := ⟨660, 0⟩,
    metadata := [("src_calendar", some "work"), ("src_id", some "d1")] }

/-- A destination store holding the two duplicate records. -/
def dupStore : Store := ⟨[dupRecordA, dupRecordB], 2⟩

/-- The source event whose id `d1` the two duplicates both claim. -/
def dupSrcEvent : Event :=
  { id := some "d1", title := "T", start := ⟨600, 0⟩, end_ := ⟨660, 0⟩ }

/-- The store after syncing `dupSrcEvent` into `dupStore`: the
second-seen duplicate is gone, the first is kept (updated in place). -/
def dupRunStore : Store := ⟨[dupRecordA], 2⟩

/-- The trace of that run: one no-op update of the matched record and the
unconditional deletion of the duplicate. -/
def dupRunOps : List Op := [Op.update dupRecordA dupRecordA, Op.delete (some (idOfNat 1))]

/-- A source event with id `x`, title `A` (first of a pair sharing an
id). -/
def dupIdSrcA : Event :=
  { id := some "x", title := "A", start := ⟨600, 0⟩, end_ := ⟨660, 0⟩ }

/-- A second source event with the same id `x` but title `B`. -/
def dupIdSrcB : Event :=
  { id := some "x", title := "B", start := ⟨600, 0⟩, end_ := ⟨660, 0⟩ }

/-- The destination record the first run persists for `dupIdSrcA`. -/
def syncedA : Event :=
  { id := some (idOfNat 0), title := "A", start := ⟨600, 0⟩, end_ := ⟨660, 0⟩,
    metadata := [("src_calendar", some "work"), ("src_id", some "x")] }

/-- The destination record the first run persists for `dupIdSrcB`. -/
def syncedB : Event :=
  { id := some (idOfNat 1), title := "B", start := ⟨600, 0⟩, end_ := ⟨660, 0⟩,
    metadata := [("src_calendar", some "work"), ("src_id", some "x")] }

/-- The destination store after the first run on the duplicate-id source. -/
def runOneStore : Store := ⟨[syncedA, syncedB], 2⟩

/-- The trace of the first run on the duplicate-id source. -/
def runOneOps : List Op := [Op.add syncedA, Op.add syncedB]

/-- The destination store after the second, supposedly no-op run: the
record for title `B` has been deleted. -/
def runTwoStore : Store := ⟨[syncedA], 2⟩

/-- The trace of the second run: a no-op update, a skipped insertion, and
a deletion. -/
def runTwoOps : List Op :=
  [Op.update syncedA syncedA,
   Op.skip { id := none, title := "B", start := ⟨600, 0⟩, end_ := ⟨660, 0⟩,
             metadata := [("src_calendar", some "work"), ("src_id", some "x")] },
   Op.delete (some (idOfNat 1))]

/-- The destination store after one run syncing only `dupIdSrcA` into an
empty destination. -/
def singleRunStore : Store := ⟨[syncedA], 1⟩

/-- The trace of that single-event run: one persisted creation. -/
def singleRunOps : List Op := [Op.add syncedA]

/-- A destination record carrying no metadata (say, human-created) that
matches `exampleSrcEvent` by `(title, start, end)`. -/
def untaggedRecord : Event :=
  { id := some (idOfNat 0), title := "Standup", start := ⟨600, 0⟩, end_ := ⟨660, 0⟩ }

/-- A destination store holding only `untaggedRecord`. -/
def untaggedStore : Store := ⟨[untaggedRecord], 1⟩

/-- A never-synced source event that `untaggedRecord` happens to match. -/
def srcAbc : Event :=
  { id := some "abc", title := "Standup", start := ⟨600, 0⟩, end_ := ⟨660, 0⟩ }

/-! ### Helpers describing what one `sync_from` run computes -/

/-- The source events a run treats as new: their identifier is absent
from the Step-1 index. -/
def newSrc (m0 : List (Option String × Option String)) (src : List Event) : List Event :=
  src.filter (fun e => (alookup e.id m0).isNone)

/-- The records the run appends for its new source events, with the
identifiers the store issues starting from counter `n`. -/
def mkNews (cfg : SyncConfig) : Nat → List Event → List Event
  | _, [] => []
  | n, e :: rest =>
    { Event.ofDetails (computeDetails cfg e) with id := some (idOfNat n) } :: mkNews cfg (n + 1) rest

/-- How the processing loop leaves one destination record: patched with
its matched source event's details when some source event's index entry
points at it, untouched otherwise. -/
def updFn (cfg : SyncConfig) (m0 : List (Option String × Option String))
    (src : List Event) (r : Event) : Event :=
  match src.find? (fun e => decide (alookup e.id m0 = some r.id)) with
  | some e => r.update (computeDetails cfg e)
  | none => r

/-- The Step-1 index of a run: the `src_id` mapping and the duplicates. -/
def step1Index (st : Store) (cfg : SyncConfig) (now : DateTime) :
    List (Option String × Option String) × List (Option String) :=
  buildIndex [] [] (st.events (some (syncFilter cfg now)))

/-- The destination identifiers Step 4 deletes: the values of the
unconsumed (orphan) index entries followed by the recorded duplicates. -/
def runDeletedIds (st : Store) (src : List Event) (cfg : SyncConfig) (now : DateTime) :
    List (Option String) :=
  ((step1Index st cfg now).1.filter
    (fun kv => decide (kv.1 ∉ src.map Event.id))).map Prod.snd ++
  (step1Index st cfg now).2

/-! ## General facts about the embedded operations -/

/-- `replaceTime` keeps the calendar day: the inserted time of day is
within `[0, 1440)` minutes. -/
theorem replaceTime_dateOf (d : DateTime) (t : Time) :
    (d.replaceTime t).dateOf = d.dateOf := by
  have h1 : t.hour.val < 24 := t.hour.isLt
  have h2 : t.minute.val < 60 := t.minute.isLt
  simp only [DateTime.replaceTime, DateTime.dateOf]
  omega

/-- `replaceTime` keeps the timezone. -/
theorem replaceTime_tz (d : DateTime) (t : Time) : (d.replaceTime t).tz = d.tz := rfl

/-- `replaceTime` installs exactly the requested time of day. -/
theorem replaceTime_timeOfDay (d : DateTime) (t : Time) :
    (d.replaceTime t).timeOfDay = (t.hour.val : Int) * 60 + (t.minute.val : Int) := by
  have h1 : t.hour.val < 24 := t.hour.isLt
  have h2 : t.minute.val < 60 := t.minute.isLt
  simp only [DateTime.replaceTime, DateTime.timeOfDay]
  omega

/-- Adding a zero offset is the identity (so the falsy `timedelta(0)`
shortcut in the code does not change the result). -/
theorem addMinutes_zero (d : DateTime) : d.addMinutes 0 = d := by
  simp [DateTime.addMinutes]

/-! ## Small structural helpers -/

theorem nodup_map_eq_of_eq {α β : Type _} {f : α → β} {l : List α}
    (hnd : (l.map f).Nodup) {a b : α} (ha : a ∈ l) (hb : b ∈ l) (h : f a = f b) : a = b := by
  induction l with
  | nil => simp at ha
  | cons x rest ih =>
    simp only [List.map_cons, List.nodup_cons] at hnd
    rcases List.mem_cons.mp ha with ha1 | ha1 <;> rcases List.mem_cons.mp hb with hb1 | hb1
    · rw [ha1, hb1]
    · subst ha1
      exact absurd (h ▸ List.mem_map_of_mem f hb1) hnd.1
    · subst hb1
      exact absurd (h ▸ List.mem_map_of_mem f ha1) (by rw [← h] at hnd ⊢; exact hnd.1)
    · exact ih hnd.2 ha1 hb1

theorem find?_congr {α : Type _} {p q : α → Bool} :
    ∀ {l : List α}, (∀ x ∈ l, p x = q x) → l.find? p = l.find? q := by
  intro l
  induction l with
  | nil => intro _; rfl
  | cons x rest ih =>
    intro h
    rw [List.find?_cons, List.find?_cons, h x (List.mem_cons_self x rest)]
    rcases q x with _ | _
    · exact ih fun y hy => h y (List.mem_cons_of_mem x hy)
    · rfl

theorem idOfNat_inj {m n : Nat} (h : idOfNat m = idOfNat n) : m = n := by
  have h2 := congrArg String.data h
  simp only [idOfNat] at h2
  simpa using congrArg List.length h2

/-! ## Structural facts about events, patches and the store -/

theorem Event.update_id (r : Event) (d : Details) : (r.update d).id = r.id := rfl

theorem Event.update_fieldsOf (r : Event) (d : Details) : (r.update d).fieldsOf = d := rfl

theorem Event.ofDetails_fieldsOf (d : Details) : (Event.ofDetails d).fieldsOf = d := rfl

theorem Event.update_self {r : Event} {d : Details} (h : r.fieldsOf = d) : r.update d = r := by
  cases r with
  | mk id title start end_ all_day description metadata =>
    cases d with
    | mk dt ds de da dd dm =>
      injection h with h1 h2 h3 h4 h5 h6
      subst h1; subst h2; subst h3; subst h4; subst h5; subst h6
      rfl

theorem EventFilter.call_eq_of_fields {f : EventFilter} {r1 r2 : Event}
    (h : r1.fieldsOf = r2.fieldsOf) : f.call r1 = f.call r2 := by
  have hs : r1.start = r2.start := congrArg Details.start h
  have he : r1.end_ = r2.end_ := congrArg Details.end_ h
  have hm : r1.metadata = r2.metadata := congrArg Details.metadata h
  simp only [EventFilter.call, hs, he, hm]

theorem computeDetails_metadata (cfg : SyncConfig) (e : Event) :
    (computeDetails cfg e).metadata =
      [("src_calendar", some cfg.src_calendar), ("src_id", e.id)] := rfl

theorem computeDetails_src_id (cfg : SyncConfig) (e : Event) :
    getMeta (computeDetails cfg e).metadata "src_id" = e.id := by
  rw [computeDetails_metadata]
  simp [getMeta, List.find?]

theorem computeDetails_src_calendar (cfg : SyncConfig) (e : Event) :
    getMeta (computeDetails cfg e).metadata "src_calendar" = some cfg.src_calendar := by
  rw [computeDetails_metadata]
  simp [getMeta, List.find?]

theorem updFn_id (cfg : SyncConfig) (m : List (Option String × Option String))
    (src : List Event) (r : Event) : (updFn cfg m src r).id = r.id := by
  rw [updFn]
  rcases hf : src.find? (fun e => decide (alookup e.id m = some r.id)) with _ | e
  · rw [hf]
  · rw [hf]
    rfl

theorem get_event_mem {st : Store} {v : Option String} {r : Event}
    (h : st.get_event v = some r) : r ∈ st.items ∧ r.id = v := by
  refine ⟨List.mem_of_find?_eq_some h, ?_⟩
  have h2 := List.find?_some h
  simpa using h2

theorem get_event_of_mem {st : Store} {r : Event} (hnd : (st.items.map Event.id).Nodup)
    (hm : r ∈ st.items) : st.get_event r.id = some r := by
  rw [Store.get_event]
  rcases hf : st.items.find? (fun e => decide (e.id = r.id)) with _ | r2
  · rw [List.find?_eq_none] at hf
    exact absurd (by simp) (hf r hm)
  · have h2 := List.find?_some hf
    have h3 := List.mem_of_find?_eq_some hf
    simp only [decide_eq_true_eq] at h2
    rw [hf]
    exact congrArg some (nodup_map_eq_of_eq hnd h3 hm h2)

theorem update_event_items (st : Store) (e : Event) :
    (st.update_event e).items = st.items.map (fun x => if x.id = e.id then e else x) := rfl

theorem update_event_nextId (st : Store) (e : Event) :
    (st.update_event e).nextId = st.nextId := rfl

theorem update_event_ids (st : Store) (e : Event) :
    (st.update_event e).items.map Event.id = st.items.map Event.id := by
  rw [update_event_items, List.map_map]
  refine List.map_congr_left ?_
  intro x _
  by_cases h : x.id = e.id
  · simp [Function.comp, h]
  · simp [Function.comp, h]

theorem update_event_self {st : Store} {e : Event}
    (h : ∀ x ∈ st.items, x.id = e.id → x = e) : st.update_event e = st := by
  cases st with
  | mk items nextId =>
    simp only [Store.update_event, Store.mk.injEq, and_true]
    refine .trans (List.map_congr_left ?_) (List.map_id _)
    intro x hx
    by_cases hc : x.id = e.id
    · simp only [if_pos hc, id]
      exact (h x hx hc).symm
    · simp [hc]

theorem delete_event_items (st : Store) (i : Option String) :
    (st.delete_event i).items = st.items.filter (fun x => decide (x.id ≠ i)) := rfl

theorem foldl_delete_items :
    ∀ (L : List (Option String)) (st : Store),
      (L.foldl (fun s i => s.delete_event i) st).items
        = st.items.filter (fun r => decide (r.id ∉ L)) := by
  intro L
  induction L with
  | nil =>
    intro st
    rw [List.foldl_nil, List.filter_eq_self.mpr]
    intro r _
    simp
  | cons v L' ih =>
    intro st
    rw [List.foldl_cons, ih, delete_event_items, List.filter_filter]
    refine List.filter_congr ?_
    intro r _
    simp [List.mem_cons, not_or, Bool.and_comm]

theorem foldl_delete_nextId :
    ∀ (L : List (Option String)) (st : Store),
      (L.foldl (fun s i => s.delete_event i) st).nextId = st.nextId := by
  intro L
  induction L with
  | nil => intro st; rfl
  | cons v L' ih => intro st; rw [List.foldl_cons, ih]; rfl

theorem mkNews_length (cfg : SyncConfig) :
    ∀ (ns : List Event) (n : Nat), (mkNews cfg n ns).length = ns.length := by
  intro ns
  induction ns with
  | nil => intro n; rfl
  | cons e rest ih => intro n; simp [mkNews, ih]

theorem mem_mkNews {cfg : SyncConfig} :
    ∀ {ns : List Event} {n : Nat} {r : Event}, r ∈ mkNews cfg n ns →
      ∃ i, ∃ h : i < ns.length, r.id = some (idOfNat (n + i)) ∧
        r.fieldsOf = computeDetails cfg (ns.get ⟨i, h⟩) := by
  intro ns
  induction ns with
  | nil => intro n r h; simp [mkNews] at h
  | cons e rest ih =>
    intro n r h
    rw [mkNews] at h
    rcases List.mem_cons.mp h with h1 | h1
    · refine ⟨0, by simp, ?_, ?_⟩
      · rw [h1]
        simp
      · rw [h1]
        rfl
    · obtain ⟨i, hi, hid, hf⟩ := ih h1
      refine ⟨i + 1, by simpa using hi, ?_, ?_⟩
      · rw [hid]
        have : n + 1 + i = n + (i + 1) := by omega
        rw [this]
      · rw [hf]
        rfl

theorem mkNews_mem_of {cfg : SyncConfig} :
    ∀ {ns : List Event} {n : Nat} {e : Event}, e ∈ ns →
      ∃ r ∈ mkNews cfg n ns, r.fieldsOf = computeDetails cfg e ∧
        ∃ k, n ≤ k ∧ r.id = some (idOfNat k) := by
  intro ns
  induction ns with
  | nil => intro n e h; simp at h
  | cons x rest ih =>
    intro n e h
    rcases List.mem_cons.mp h with h1 | h1
    · subst h1
      refine ⟨{ Event.ofDetails (computeDetails cfg e) with id := some (idOfNat n) },
        ?_, rfl, n, le_rfl, rfl⟩
      rw [mkNews]
      exact List.mem_cons_self _ _
    · obtain ⟨r, hr, hf, k, hk, hid⟩ := @ih (n + 1) e h1
      exact ⟨r, by rw [mkNews]; exact List.mem_cons_of_mem _ hr, hf, k, by omega, hid⟩

theorem mkNews_ids_lb {cfg : SyncConfig} {ns : List Event} {n : Nat} {r : Event}
    (h : r ∈ mkNews cfg n ns) : ∃ k, n ≤ k ∧ r.id = some (idOfNat k) := by
  obtain ⟨i, hi, hid, _⟩ := mem_mkNews h
  exact ⟨n + i, by omega, hid⟩

theorem mkNews_ids_nodup (cfg : SyncConfig) :
    ∀ (ns : List Event) (n : Nat), ((mkNews cfg n ns).map Event.id).Nodup := by
  intro ns
  induction ns with
  | nil => intro n; simp [mkNews]
  | cons e rest ih =>
    intro n
    rw [mkNews, List.map_cons, List.nodup_cons]
    refine ⟨?_, ih (n + 1)⟩
    intro hmem
    obtain ⟨r, hr, hid⟩ := List.mem_map.mp hmem
    obtain ⟨k, hk, hid2⟩ := mkNews_ids_lb hr
    rw [hid2] at hid
    have := idOfNat_inj (Option.some.inj hid)
    omega

/-! ## Lookup and pop lemmas for the `existing_ids` dict -/

theorem alookup_mem {k v : Option String} {m : List (Option String × Option String)}
    (h : alookup k m = some v) : (k, v) ∈ m := by
  induction m with
  | nil => simp [alookup] at h
  | cons p rest ih =>
    by_cases hp : p.1 = k
    · simp only [alookup, if_pos hp, Option.some.injEq] at h
      rw [← hp, ← h]
      exact List.mem_cons_self p rest
    · simp only [alookup, if_neg hp] at h
      exact List.mem_cons_of_mem _ (ih h)

theorem alookup_eq_none {k : Option String} {m : List (Option String × Option String)} :
    alookup k m = none ↔ ∀ kv ∈ m, kv.1 ≠ k := by
  induction m with
  | nil => simp [alookup]
  | cons p rest ih =>
    by_cases hp : p.1 = k
    · simp [alookup, if_pos hp, hp]
    · simp [alookup, if_neg hp, ih, hp]

theorem alookup_isSome_of_mem {k v : Option String} {m : List (Option String × Option String)}
    (h : (k, v) ∈ m) : (alookup k m).isSome := by
  induction m with
  | nil => simp at h
  | cons p rest ih =>
    by_cases hp : p.1 = k
    · simp [alookup, if_pos hp]
    · rcases List.mem_cons.mp h with h1 | h1
      · exact absurd (congrArg Prod.fst h1.symm) hp
      · simpa [alookup, if_neg hp] using ih h1

theorem alookup_append_left {k v : Option String} {m1 m2 : List (Option String × Option String)}
    (h : alookup k m1 = some v) : alookup k (m1 ++ m2) = some v := by
  induction m1 with
  | nil => simp [alookup] at h
  | cons p rest ih =>
    by_cases hp : p.1 = k
    · simp only [alookup, if_pos hp, Option.some.injEq] at h
      simp [alookup, if_pos hp, h]
    · simp only [alookup, if_neg hp] at h ⊢
      exact ih h

theorem alookup_append_right {k : Option String} {m1 m2 : List (Option String × Option String)}
    (h : alookup k m1 = none) : alookup k (m1 ++ m2) = alookup k m2 := by
  induction m1 with
  | nil => simp [alookup]
  | cons p rest ih =>
    by_cases hp : p.1 = k
    · simp [alookup, if_pos hp] at h
    · simp only [alookup, if_neg hp] at h ⊢
      exact ih h

theorem popKey_eq_none {k : Option String} {m : List (Option String × Option String)} :
    popKey k m = none ↔ alookup k m = none := by
  induction m with
  | nil => simp [popKey, alookup]
  | cons p rest ih =>
    by_cases hp : p.1 = k
    · simp [popKey, alookup, if_pos hp]
    · simp only [popKey, alookup, if_neg hp]
      rcases h : popKey k rest with _ | ⟨v, rest'⟩
      · simpa [h] using ih.mp h
      · simp only [h]
        constructor
        · intro hcontra
          exact absurd hcontra (by simp)
        · intro hnone
          rw [ih.mpr hnone] at h
          exact absurd h (by simp)

theorem popKey_some_alookup {k v : Option String}
    {m m' : List (Option String × Option String)}
    (h : popKey k m = some (v, m')) : alookup k m = some v := by
  induction m generalizing m' with
  | nil => simp [popKey] at h
  | cons p rest ih =>
    by_cases hp : p.1 = k
    · simp only [popKey, if_pos hp, Option.some.injEq, Prod.mk.injEq] at h
      simp [alookup, if_pos hp, h.1]
    · simp only [popKey, if_neg hp] at h
      rcases hr : popKey k rest with _ | ⟨v2, rest2⟩
      · rw [hr] at h; exact absurd h (by simp)
      · rw [hr] at h
        simp only [Option.some.injEq, Prod.mk.injEq] at h
        simp only [alookup, if_neg hp]
        exact ih (by rw [← h.1]; exact hr)

theorem popKey_sublist {k v : Option String}
    {m m' : List (Option String × Option String)}
    (h : popKey k m = some (v, m')) : m'.Sublist m := by
  induction m generalizing m' with
  | nil => simp [popKey] at h
  | cons p rest ih =>
    by_cases hp : p.1 = k
    · simp only [popKey, if_pos hp, Option.some.injEq, Prod.mk.injEq] at h
      rw [← h.2]
      exact List.sublist_cons_self p rest
    · simp only [popKey, if_neg hp] at h
      rcases hr : popKey k rest with _ | ⟨v2, rest2⟩
      · rw [hr] at h; exact absurd h (by simp)
      · rw [hr] at h
        simp only [Option.some.injEq, Prod.mk.injEq] at h
        rw [← h.2]
        exact (ih (by rw [hr, h.1])).cons₂ p

theorem popKey_mem_of_ne {k v : Option String} {kv : Option String × Option String}
    {m m' : List (Option String × Option String)}
    (h : popKey k m = some (v, m')) (hmem : kv ∈ m) (hne : kv.1 ≠ k) : kv ∈ m' := by
  induction m generalizing m' with
  | nil => simp at hmem
  | cons p rest ih =>
    by_cases hp : p.1 = k
    · simp only [popKey, if_pos hp, Option.some.injEq, Prod.mk.injEq] at h
      rcases List.mem_cons.mp hmem with h1 | h1
      · rw [h1] at hne; exact absurd hp hne
      · rw [← h.2]; exact h1
    · simp only [popKey, if_neg hp] at h
      rcases hr : popKey k rest with _ | ⟨v2, rest2⟩
      · rw [hr] at h; exact absurd h (by simp)
      · rw [hr] at h
        simp only [Option.some.injEq, Prod.mk.injEq] at h
        rcases List.mem_cons.mp hmem with h1 | h1
        · rw [← h.2, h1]; exact List.mem_cons_self p rest2
        · rw [← h.2]
          exact List.mem_cons_of_mem _ (ih (by rw [hr, h.1]) h1)

theorem popKey_alookup_ne {k k' v : Option String}
    {m m' : List (Option String × Option String)}
    (h : popKey k m = some (v, m')) (hne : k' ≠ k) : alookup k' m' = alookup k' m := by
  induction m generalizing m' with
  | nil => simp [popKey] at h
  | cons p rest ih =>
    by_cases hp : p.1 = k
    · simp only [popKey, if_pos hp, Option.some.injEq, Prod.mk.injEq] at h
      rw [← h.2]
      have hp' : p.1 ≠ k' := by rw [hp]; exact fun hc => hne hc.symm
      simp [alookup, if_neg hp']
    · simp only [popKey, if_neg hp] at h
      rcases hr : popKey k rest with _ | ⟨v2, rest2⟩
      · rw [hr] at h; exact absurd h (by simp)
      · rw [hr] at h
        simp only [Option.some.injEq, Prod.mk.injEq] at h
        rw [← h.2]
        by_cases hpk : p.1 = k'
        · simp [alookup, if_pos hpk]
        · simp only [alookup, if_neg hpk]
          exact ih (by rw [hr, h.1])

theorem popKey_eq_filter {k v : Option String}
    {m m' : List (Option String × Option String)}
    (hnd : (m.map Prod.fst).Nodup) (h : popKey k m = some (v, m')) :
    m' = m.filter (fun kv => decide (kv.1 ≠ k)) := by
  induction m generalizing m' with
  | nil => simp [popKey] at h
  | cons p rest ih =>
    simp only [List.map_cons, List.nodup_cons] at hnd
    by_cases hp : p.1 = k
    · simp only [popKey, if_pos hp, Option.some.injEq, Prod.mk.injEq] at h
      rw [← h.2]
      have hrest : ∀ kv ∈ rest, kv.1 ≠ k := by
        intro kv hkv hc
        exact hnd.1 (by rw [hp, ← hc]; exact List.mem_map_of_mem Prod.fst hkv)
      rw [List.filter_cons_of_neg (by simp [hp]), List.filter_eq_self.mpr]
      intro kv hkv
      simpa using hrest kv hkv
    · simp only [popKey, if_neg hp] at h
      rcases hr : popKey k rest with _ | ⟨v2, rest2⟩
      · rw [hr] at h; exact absurd h (by simp)
      · rw [hr] at h
        simp only [Option.some.injEq, Prod.mk.injEq] at h
        rw [← h.2, List.filter_cons_of_pos (by simp [hp])]
        have h2 : popKey k rest = some (v, rest2) := by rw [hr, h.1]
        rw [ih hnd.2 h2]

/-! ## Lemmas about Step-1 index construction -/

theorem buildIndex_map_mono {k v : Option String} :
    ∀ (evs : List Event) (m : List (Option String × Option String))
      (d : List (Option String)), alookup k m = some v →
      alookup k (buildIndex m d evs).1 = some v := by
  intro evs
  induction evs with
  | nil => intro m d h; simpa [buildIndex] using h
  | cons e rest ih =>
    intro m d h
    rw [buildIndex]
    rcases hl : alookup (getMeta e.metadata "src_id") m with _ | w
    · simp only
      exact ih _ _ (alookup_append_left h)
    · simp only
      exact ih _ _ h

theorem buildIndex_dups_mono {x : Option String} :
    ∀ (evs : List Event) (m : List (Option String × Option String))
      (d : List (Option String)), x ∈ d → x ∈ (buildIndex m d evs).2 := by
  intro evs
  induction evs with
  | nil => intro m d h; simpa [buildIndex] using h
  | cons e rest ih =>
    intro m d h
    rw [buildIndex]
    rcases hl : alookup (getMeta e.metadata "src_id") m with _ | w
    · simp only
      exact ih _ _ h
    · simp only
      exact ih _ _ (List.mem_append_left _ h)

theorem buildIndex_map_mem {kv : Option String × Option String} :
    ∀ (evs : List Event) (m : List (Option String × Option String))
      (d : List (Option String)), kv ∈ (buildIndex m d evs).1 →
      kv ∈ m ∨ ∃ r ∈ evs, kv = (getMeta r.metadata "src_id", r.id) := by
  intro evs
  induction evs with
  | nil =>
    intro m d h
    exact Or.inl (by simpa [buildIndex] using h)
  | cons e rest ih =>
    intro m d h
    rw [buildIndex] at h
    rcases hl : alookup (getMeta e.metadata "src_id") m with _ | w
    · rw [hl] at h
      rcases ih _ _ h with h1 | ⟨r, hr, hkv⟩
      · rcases List.mem_append.mp h1 with h2 | h2
        · exact Or.inl h2
        · simp only [List.mem_singleton] at h2
          exact Or.inr ⟨e, List.mem_cons_self e rest, h2⟩
      · exact Or.inr ⟨r, List.mem_cons_of_mem e hr, hkv⟩
    · rw [hl] at h
      rcases ih _ _ h with h1 | ⟨r, hr, hkv⟩
      · exact Or.inl h1
      · exact Or.inr ⟨r, List.mem_cons_of_mem e hr, hkv⟩

theorem buildIndex_dups_mem {x : Option String} :
    ∀ (evs : List Event) (m : List (Option String × Option String))
      (d : List (Option String)), x ∈ (buildIndex m d evs).2 →
      x ∈ d ∨ ∃ r ∈ evs, x = r.id := by
  intro evs
  induction evs with
  | nil =>
    intro m d h
    exact Or.inl (by simpa [buildIndex] using h)
  | cons e rest ih =>
    intro m d h
    rw [buildIndex] at h
    rcases hl : alookup (getMeta e.metadata "src_id") m with _ | w
    · rw [hl] at h
      rcases ih _ _ h with h1 | h1
      · exact Or.inl h1
      · obtain ⟨r, hr, hx⟩ := h1
        exact Or.inr ⟨r, List.mem_cons_of_mem e hr, hx⟩
    · rw [hl] at h
      rcases ih _ _ h with h1 | h1
      · rcases List.mem_append.mp h1 with h2 | h2
        · exact Or.inl h2
        · simp only [List.mem_singleton] at h2
          exact Or.inr ⟨e, List.mem_cons_self e rest, h2⟩
      · obtain ⟨r, hr, hx⟩ := h1
        exact Or.inr ⟨r, List.mem_cons_of_mem e hr, hx⟩

/-- Every indexed destination event either owns the mapping entry for its
`src_id` (it was first) or its identifier is recorded as a duplicate. -/
theorem buildIndex_first_or_dup :
    ∀ (evs : List Event) (m : List (Option String × Option String))
      (d : List (Option String)) (r : Event), r ∈ evs →
      alookup (getMeta r.metadata "src_id") (buildIndex m d evs).1 = some r.id ∨
      r.id ∈ (buildIndex m d evs).2 := by
  intro evs
  induction evs with
  | nil => intro m d r hr; simp at hr
  | cons e rest ih =>
    intro m d r hr
    rw [buildIndex]
    rcases List.mem_cons.mp hr with h1 | h1
    · subst h1
      rcases hl : alookup (getMeta r.metadata "src_id") m with _ | w
      · simp only
        refine Or.inl (buildIndex_map_mono rest _ _ ?_)
        rw [alookup_append_right hl]
        simp [alookup]
      · simp only
        exact Or.inr (buildIndex_dups_mono rest _ _ (List.mem_append_right d (by simp)))
    · rcases hl : alookup (getMeta e.metadata "src_id") m with _ | w
      · simp only
        exact ih _ _ r h1
      · simp only
        exact ih _ _ r h1

/-- When a key is absent from the accumulator, the final mapping holds,
for that key, the identifier of the first filtered event carrying it. -/
theorem buildIndex_lookup_first {k : Option String} :
    ∀ (evs : List Event) (m : List (Option String × Option String))
      (d : List (Option String)), alookup k m = none →
      alookup k (buildIndex m d evs).1 =
        (evs.find? (fun r => decide (getMeta r.metadata "src_id" = k))).map Event.id := by
  intro evs
  induction evs with
  | nil => intro m d h; simpa [buildIndex] using h
  | cons e rest ih =>
    intro m d h
    rw [buildIndex]
    by_cases hk : getMeta e.metadata "src_id" = k
    · rw [List.find?_cons_of_pos _ (by simpa using hk)]
      rcases hl : alookup (getMeta e.metadata "src_id") m with _ | w
      · rw [show Option.map Event.id (some e) = some e.id from rfl]
        exact buildIndex_map_mono rest _ _
          (by rw [alookup_append_right h]; simp [alookup, hk])
      · rw [hk] at hl
        rw [hl] at h
        exact absurd h (by simp)
    · rw [List.find?_cons_of_neg _ (by simpa using hk)]
      rcases hl : alookup (getMeta e.metadata "src_id") m with _ | w
      · simp only
        refine ih _ _ ?_
        rw [alookup_append_right h]
        simp [alookup, fun hc : getMeta e.metadata "src_id" = k => hk hc]
      · simp only
        exact ih _ _ h

/-- A filtered event preceded by another with the same `src_id` — or
whose `src_id` is already a key of the accumulator — has its identifier
recorded as a duplicate. -/
theorem buildIndex_dup_of_seen :
    ∀ (l1 : List Event) (r : Event) (l2 : List Event)
      (m : List (Option String × Option String)) (d : List (Option String)),
      ((∃ r' ∈ l1, getMeta r'.metadata "src_id" = getMeta r.metadata "src_id") ∨
        (alookup (getMeta r.metadata "src_id") m).isSome) →
      r.id ∈ (buildIndex m d (l1 ++ r :: l2)).2 := by
  intro l1
  induction l1 with
  | nil =>
    intro r l2 m d h
    rcases h with ⟨r', hr', _⟩ | h
    · simp at hr'
    · rw [List.nil_append, buildIndex]
      rcases hl : alookup (getMeta r.metadata "src_id") m with _ | w
      · rw [hl] at h; simp at h
      · simp only
        exact buildIndex_dups_mono l2 _ _ (List.mem_append_right d (by simp))
  | cons e l1' ih =>
    intro r l2 m d h
    rw [List.cons_append, buildIndex]
    rcases hl : alookup (getMeta e.metadata "src_id") m with _ | w
    · refine ih r l2 _ _ ?_
      rcases h with ⟨r', hr', hsame⟩ | hsome
      · rcases List.mem_cons.mp hr' with h1 | h1
        · subst h1
          refine Or.inr ?_
          rw [← hsame, alookup_append_right hl]
          simp [alookup]
        · exact Or.inl ⟨r', h1, hsame⟩
      · refine Or.inr ?_
        rcases hx : alookup (getMeta r.metadata "src_id") m with _ | w2
        · rw [hx] at hsome; simp at hsome
        · rw [alookup_append_left hx]; simp
    · refine ih r l2 _ _ ?_
      rcases h with ⟨r', hr', hsame⟩ | hsome
      · rcases List.mem_cons.mp hr' with h1 | h1
        · subst h1
          exact Or.inr (by rw [← hsame, hl]; simp)
        · exact Or.inl ⟨r', h1, hsame⟩
      · exact Or.inr hsome

/-- The index never records the same `src_id` key twice. -/
theorem buildIndex_keys_nodup :
    ∀ (evs : List Event) (m : List (Option String × Option String))
      (d : List (Option String)), (m.map Prod.fst).Nodup →
      ((buildIndex m d evs).1.map Prod.fst).Nodup := by
  intro evs
  induction evs with
  | nil => intro m d h; simpa [buildIndex] using h
  | cons e rest ih =>
    intro m d h
    rw [buildIndex]
    rcases hl : alookup (getMeta e.metadata "src_id") m with _ | w
    · refine ih _ _ ?_
      rw [List.map_append]
      rw [List.nodup_append]
      refine ⟨h, by simp, ?_⟩
      intro k hk
      simp only [List.map_cons, List.map_nil, List.mem_singleton]
      intro hc
      obtain ⟨kv, hkv, hfst⟩ := List.mem_map.mp hk
      rw [alookup_eq_none] at hl
      exact hl kv hkv (by rw [hfst, hc])
    · exact ih _ _ h

/-- With distinct destination identifiers among the filtered events, the
index never records the same destination identifier twice. -/
theorem buildIndex_vals_nodup :
    ∀ (evs : List Event) (m : List (Option String × Option String))
      (d : List (Option String)),
      (evs.map Event.id).Nodup → (m.map Prod.snd).Nodup →
      (∀ r ∈ evs, ∀ kv ∈ m, kv.2 ≠ r.id) →
      ((buildIndex m d evs).1.map Prod.snd).Nodup := by
  intro evs
  induction evs with
  | nil => intro m d _ h _; simpa [buildIndex] using h
  | cons e rest ih =>
    intro m d hevs hm hsep
    rw [List.map_cons, List.nodup_cons] at hevs
    rw [buildIndex]
    rcases hl : alookup (getMeta e.metadata "src_id") m with _ | w
    · refine ih _ _ hevs.2 ?_ ?_
      · rw [List.map_append, List.nodup_append]
        refine ⟨hm, by simp, ?_⟩
        intro v hv
        simp only [List.map_cons, List.map_nil, List.mem_singleton]
        intro hc
        obtain ⟨kv, hkv, hsnd⟩ := List.mem_map.mp hv
        exact hsep e (List.mem_cons_self e rest) kv hkv (by rw [hsnd, hc])
      · intro r hr kv hkv
        rcases List.mem_append.mp hkv with h1 | h1
        · exact hsep r (List.mem_cons_of_mem e hr) kv h1
        · simp only [List.mem_singleton] at h1
          rw [h1]
          intro hc
          have hc2 : e.id = r.id := hc
          refine hevs.1 ?_
          rw [hc2]
          exact List.mem_map_of_mem Event.id hr
    · refine ih _ _ hevs.2 hm ?_
      intro r hr kv hkv
      exact hsep r (List.mem_cons_of_mem e hr) kv hkv

/-- No identifier is both a mapping value and a recorded duplicate. -/
theorem buildIndex_vals_dups_disjoint :
    ∀ (evs : List Event) (m : List (Option String × Option String))
      (d : List (Option String)),
      (evs.map Event.id).Nodup →
      (∀ x ∈ d, ∀ kv ∈ m, kv.2 ≠ x) →
      (∀ x ∈ d, ∀ r ∈ evs, x ≠ r.id) →
      (∀ kv ∈ m, ∀ r ∈ evs, kv.2 ≠ r.id) →
      ∀ x ∈ (buildIndex m d evs).2, ∀ kv ∈ (buildIndex m d evs).1, kv.2 ≠ x := by
  intro evs
  induction evs with
  | nil =>
    intro m d _ h2 _ _ x hx kv hkv
    exact h2 x (by simpa [buildIndex] using hx) kv (by simpa [buildIndex] using hkv)
  | cons e rest ih =>
    intro m d h1 h2 h3 h4
    rw [List.map_cons, List.nodup_cons] at h1
    rw [buildIndex]
    rcases hl : alookup (getMeta e.metadata "src_id") m with _ | w
    · refine ih _ _ h1.2 ?_ ?_ ?_
      · intro x hx kv hkv
        rcases List.mem_append.mp hkv with hk1 | hk1
        · exact h2 x hx kv hk1
        · simp only [List.mem_singleton] at hk1
          rw [hk1]
          exact fun hc => h3 x hx e (List.mem_cons_self e rest) hc.symm
      · intro x hx r hr
        exact h3 x hx r (List.mem_cons_of_mem e hr)
      · intro kv hkv r hr
        rcases List.mem_append.mp hkv with hk1 | hk1
        · exact h4 kv hk1 r (List.mem_cons_of_mem e hr)
        · simp only [List.mem_singleton] at hk1
          rw [hk1]
          intro hc
          have hc2 : e.id = r.id := hc
          refine h1.1 ?_
          rw [hc2]
          exact List.mem_map_of_mem Event.id hr
    · refine ih _ _ h1.2 ?_ ?_ ?_
      · intro x hx kv hkv
        rcases List.mem_append.mp hx with hx1 | hx1
        · exact h2 x hx1 kv hkv
        · simp only [List.mem_singleton] at hx1
          rw [hx1]
          intro hc
          exact h4 kv hkv e (List.mem_cons_self e rest) hc
      · intro x hx r hr
        rcases List.mem_append.mp hx with hx1 | hx1
        · exact h3 x hx1 r (List.mem_cons_of_mem e hr)
        · simp only [List.mem_singleton] at hx1
          rw [hx1]
          intro hc
          have hc2 : e.id = r.id := hc
          refine h1.1 ?_
          rw [hc2]
          exact List.mem_map_of_mem Event.id hr
      · intro kv hkv r hr
        exact h4 kv hkv r (List.mem_cons_of_mem e hr)

/-- When every filtered event's `src_id` is fresh for the accumulator and
they are pairwise distinct, Step 1 appends one mapping entry per event
and records no duplicates. -/
theorem buildIndex_append_fresh :
    ∀ (evs : List Event) (m : List (Option String × Option String))
      (d : List (Option String)),
      (∀ r ∈ evs, alookup (getMeta r.metadata "src_id") m = none) →
      ((evs.map (fun r => getMeta r.metadata "src_id")).Nodup) →
      buildIndex m d evs =
        (m ++ evs.map (fun r => (getMeta r.metadata "src_id", r.id)), d) := by
  intro evs
  induction evs with
  | nil => intro m d _ _; simp [buildIndex]
  | cons e rest ih =>
    intro m d hfresh hnd
    rw [List.map_cons, List.nodup_cons] at hnd
    rw [buildIndex, hfresh e (List.mem_cons_self e rest)]
    have hf2 : ∀ r ∈ rest, alookup (getMeta r.metadata "src_id")
        (m ++ [(getMeta e.metadata "src_id", e.id)]) = none := by
      intro r hr
      rw [alookup_append_right (hfresh r (List.mem_cons_of_mem e hr))]
      have hne : getMeta e.metadata "src_id" ≠ getMeta r.metadata "src_id" := by
        intro hc
        refine hnd.1 ?_
        rw [hc]
        exact List.mem_map_of_mem _ hr
      simp [alookup, hne]
    change buildIndex (m ++ [(getMeta e.metadata "src_id", e.id)]) d rest = _
    rw [ih _ d hf2 hnd.2]
    simp

/-- Looking a key up in the mapping built from a record list pairs it
with the first record carrying that `src_id`. -/
theorem alookup_map_pair (k : Option String) :
    ∀ (L : List Event),
      alookup k (L.map (fun r => (getMeta r.metadata "src_id", r.id))) =
        (L.find? (fun r => decide (getMeta r.metadata "src_id" = k))).map Event.id := by
  intro L
  induction L with
  | nil => rfl
  | cons r rest ih =>
    by_cases hc : getMeta r.metadata "src_id" = k
    · simp [alookup, List.find?_cons, hc]
    · simp [alookup, List.find?_cons, hc, ih]

/-! ## Lemmas about the processing loop -/

/-- The processing loop only consumes index entries keyed by a source
event identifier: entries whose key no source event carries survive. -/
theorem processSrc_keeps {cfg : SyncConfig} {kv : Option String × Option String} :
    ∀ {src : List Event} {st : Store} {m : List (Option String × Option String)}
      {ops : List Op} {st' : Store} {m' : List (Option String × Option String)}
      {ops' : List Op},
      processSrc cfg src st m ops = some (st', m', ops') →
      kv ∈ m → kv.1 ∉ src.map Event.id → kv ∈ m' := by
  intro src
  induction src with
  | nil =>
    intro st m ops st' m' ops' h hmem _
    simp only [processSrc, Option.some.injEq, Prod.mk.injEq] at h
    rw [← h.2.1]
    exact hmem
  | cons e rest ih =>
    intro st m ops st' m' ops' h hmem hkeys
    simp only [List.map_cons, List.mem_cons, not_or] at hkeys
    simp only [processSrc] at h
    rcases hpk : popKey e.id m with _ | ⟨destId, m2⟩
    · rw [hpk] at h
      simp only at h
      split at h
      · exact ih h hmem hkeys.2
      · exact ih h hmem hkeys.2
    · rw [hpk] at h
      simp only at h
      rcases hge : st.get_event destId with _ | ev
      · rw [hge] at h; exact absurd h (by simp)
      · rw [hge] at h
        simp only at h
        exact ih h (popKey_mem_of_ne hpk hmem hkeys.1) hkeys.2

/-- The trace only grows: whatever the loop returns extends the
accumulator it was started with. -/
theorem processSrc_ops_extend {cfg : SyncConfig} :
    ∀ {src : List Event} {st : Store} {m : List (Option String × Option String)}
      {ops : List Op} {st' : Store} {m' : List (Option String × Option String)}
      {ops' : List Op},
      processSrc cfg src st m ops = some (st', m', ops') → ∃ tail, ops' = ops ++ tail := by
  intro src
  induction src with
  | nil =>
    intro st m ops st' m' ops' h
    simp only [processSrc, Option.some.injEq, Prod.mk.injEq] at h
    exact ⟨[], by rw [← h.2.2]; simp⟩
  | cons e rest ih =>
    intro st m ops st' m' ops' h
    simp only [processSrc] at h
    rcases hpk : popKey e.id m with _ | ⟨destId, m2⟩
    · rw [hpk] at h
      simp only at h
      split at h
      · obtain ⟨tail, htail⟩ := ih h
        exact ⟨_, by rw [htail, List.append_assoc]⟩
      · obtain ⟨tail, htail⟩ := ih h
        exact ⟨_, by rw [htail, List.append_assoc]⟩
    · rw [hpk] at h
      simp only at h
      rcases hge : st.get_event destId with _ | ev
      · rw [hge] at h; exact absurd h (by simp)
      · rw [hge] at h
        simp only at h
        obtain ⟨tail, htail⟩ := ih h
        exact ⟨_, by rw [htail, List.append_assoc]⟩

/-- Characterization of one full pass of the processing loop, under a
well-formed store, an index whose keys and values are distinct and whose
values resolve in the store, and pairwise-distinct source identifiers.
When the run never skipped an insertion, the final items are exactly the
original items — each patched by its matched source event — followed by
the freshly persisted records for the new source events, the counter
advanced once per new record, and the surviving index entries are exactly
those whose key no source event carries. -/
theorem processSrc_char (cfg : SyncConfig) :
    ∀ (src : List Event) (st : Store) (m : List (Option String × Option String))
      (ops : List Op),
      (st.items.map Event.id).Nodup →
      (∀ k, st.nextId ≤ k → some (idOfNat k) ∉ st.items.map Event.id) →
      (∀ kv ∈ m, ∃ r ∈ st.items, r.id = kv.2) →
      (m.map Prod.fst).Nodup →
      (m.map Prod.snd).Nodup →
      (src.map Event.id).Nodup →
      ∃ st' m' ops', processSrc cfg src st m ops = some (st', m', ops') ∧
        (∃ tail, ops' = ops ++ tail) ∧
        ((∀ op ∈ ops', op.isSkip = false) →
          st'.items = st.items.map (updFn cfg m src) ++ mkNews cfg st.nextId (newSrc m src) ∧
          st'.nextId = st.nextId + (newSrc m src).length ∧
          m' = m.filter (fun kv => decide (kv.1 ∉ src.map Event.id))) := by
  intro src
  induction src with
  | nil =>
    intro st m ops hndid hfresh hresolve hndk hndv hsrc
    refine ⟨st, m, ops, rfl, ⟨[], by simp⟩, fun _ => ⟨?_, ?_, ?_⟩⟩
    · rw [show newSrc m [] = [] from rfl, show mkNews cfg st.nextId [] = [] from rfl]
      rw [List.append_nil]
      refine .symm (.trans (List.map_congr_left ?_) (List.map_id _))
      intro r _
      rfl
    · rw [show newSrc m [] = [] from rfl]
      rfl
    · refine .symm (List.filter_eq_self.mpr ?_)
      intro kv _
      simp
  | cons e rest ih =>
    intro st m ops hndid hfresh hresolve hndk hndv hsrc
    rw [List.map_cons, List.nodup_cons] at hsrc
    obtain ⟨hsrc1, hsrc2⟩ := hsrc
    rcases hpk : popKey e.id m with _ | ⟨destId, m2⟩
    · -- the source event is new: create, guard with has_event, maybe add
      have hal : alookup e.id m = none := popKey_eq_none.mp hpk
      by_cases hhe : st.has_event (Event.ofDetails (computeDetails cfg e)) = true
      · -- skipped: recursion exists but the no-skip conclusion is vacuous
        obtain ⟨st', m', ops', hrec, ⟨tail, htail⟩, _⟩ :=
          ih st m (ops ++ [Op.skip (Event.ofDetails (computeDetails cfg e))])
            hndid hfresh hresolve hndk hndv hsrc2
        refine ⟨st', m', ops', ?_, ⟨_, htail.trans (List.append_assoc _ _ _)⟩, fun hns => ?_⟩
        · simp only [processSrc, hpk, hhe]
          rw [if_pos trivial]
          exact hrec
        · exfalso
          have hmem : Op.skip (Event.ofDetails (computeDetails cfg e)) ∈ ops' := by
            rw [htail]
            exact List.mem_append_left _ (List.mem_append_right _ (by simp))
          have := hns _ hmem
          simp [Op.isSkip] at this
      · -- genuinely added
        have hstep : processSrc cfg (e :: rest) st m ops =
            processSrc cfg rest
              ⟨st.items ++ [{ Event.ofDetails (computeDetails cfg e) with
                              id := some (idOfNat st.nextId) }], st.nextId + 1⟩
              m
              (ops ++ [Op.add { Event.ofDetails (computeDetails cfg e) with
                                id := some (idOfNat st.nextId) }]) := by
          simp only [processSrc, hpk, hhe]
          rw [if_neg (by simp [hhe])]
          rfl
        set a : Event := { Event.ofDetails (computeDetails cfg e) with
                           id := some (idOfNat st.nextId) } with ha
        set st2 : Store := ⟨st.items ++ [a], st.nextId + 1⟩ with hst2
        have hnd2 : (st2.items.map Event.id).Nodup := by
          rw [hst2]
          simp only [List.map_append]
          rw [List.nodup_append]
          refine ⟨hndid, by simp, ?_⟩
          intro x hx
          simp only [List.map_cons, List.map_nil, List.mem_singleton]
          intro hc
          rw [hc] at hx
          exact hfresh st.nextId le_rfl hx
        have hfresh2 : ∀ k, st2.nextId ≤ k → some (idOfNat k) ∉ st2.items.map Event.id := by
          intro k hk
          have hk2 : st.nextId + 1 ≤ k := hk
          rw [hst2]
          simp only [List.map_append, List.mem_append]
          rintro (hx | hx)
          · exact hfresh k (by omega) hx
          · simp only [List.map_cons, List.map_nil, List.mem_singleton,
              Option.some.injEq] at hx
            have := idOfNat_inj hx.symm
            omega
        have hresolve2 : ∀ kv ∈ m, ∃ r ∈ st2.items, r.id = kv.2 := by
          intro kv hkv
          obtain ⟨r, hr, hid⟩ := hresolve kv hkv
          exact ⟨r, by rw [hst2]; exact List.mem_append_left _ hr, hid⟩
        obtain ⟨st', m', ops', hrec, ⟨tail, htail⟩, hcond⟩ :=
          ih st2 m (ops ++ [Op.add a]) hnd2 hfresh2 hresolve2 hndk hndv hsrc2
        refine ⟨st', m', ops', by rw [hstep]; exact hrec,
          ⟨_, htail.trans (List.append_assoc _ _ _)⟩, fun hns => ?_⟩
        obtain ⟨K1, K2, K3⟩ := hcond hns
        have hnewsplit : newSrc m (e :: rest) = e :: newSrc m rest := by
          rw [newSrc, newSrc, List.filter_cons_of_pos (by simp [hal])]
        have hUa : updFn cfg m rest a = a := by
          rw [updFn]
          have hfind : rest.find? (fun e' => decide (alookup e'.id m = some a.id)) = none := by
            rw [List.find?_eq_none]
            intro e' _
            simp only [decide_eq_true_eq]
            intro hc
            obtain ⟨r, hr, hid⟩ := hresolve _ (alookup_mem hc)
            refine hfresh st.nextId le_rfl ?_
            have hid2 : r.id = some (idOfNat st.nextId) := hid
            rw [← hid2]
            exact List.mem_map_of_mem Event.id hr
          rw [hfind]
        have hUmap : st.items.map (updFn cfg m rest) =
            st.items.map (updFn cfg m (e :: rest)) := by
          refine List.map_congr_left ?_
          intro r _
          rw [updFn, updFn]
          rw [List.find?_cons_of_neg _ (by simp [hal])]
        refine ⟨?_, ?_, ?_⟩
        · rw [K1, hnewsplit]
          rw [show st2.items = st.items ++ [a] from rfl, List.map_append]
          rw [show (mkNews cfg st.nextId (e :: newSrc m rest)) =
              a :: mkNews cfg (st.nextId + 1) (newSrc m rest) from rfl]
          rw [show st2.nextId = st.nextId + 1 from rfl]
          rw [hUmap]
          simp [hUa]
        · rw [K2, hnewsplit]
          rw [show st2.nextId = st.nextId + 1 from rfl]
          simp only [List.length_cons]
          omega
        · rw [K3]
          refine List.filter_congr ?_
          intro kv hkv
          have hne : kv.1 ≠ e.id := alookup_eq_none.mp hal kv hkv
          simp [List.mem_cons, hne]
    · -- the source event matches an index entry: fetch and update
      have hal : alookup e.id m = some destId := popKey_some_alookup hpk
      obtain ⟨r0, hr0mem, hr0id⟩ := hresolve _ (alookup_mem hal)
      rcases hge : st.get_event destId with _ | ev
      · exfalso
        rw [Store.get_event, List.find?_eq_none] at hge
        exact absurd (by simp [hr0id]) (hge r0 hr0mem)
      · obtain ⟨hevmem, hevid⟩ := get_event_mem hge
        have hstep : processSrc cfg (e :: rest) st m ops =
            processSrc cfg rest (st.update_event (ev.update (computeDetails cfg e))) m2
              (ops ++ [Op.update ev (ev.update (computeDetails cfg e))]) := by
          simp only [processSrc, hpk, hge]
        set evd : Event := ev.update (computeDetails cfg e) with hevd
        have hevdid : evd.id = destId := hevid
        set st2 : Store := st.update_event evd with hst2
        have hm2sub : m2.Sublist m := popKey_sublist hpk
        have hids2 : st2.items.map Event.id = st.items.map Event.id := update_event_ids st evd
        have hnd2 : (st2.items.map Event.id).Nodup := by rw [hids2]; exact hndid
        have hfresh2 : ∀ k, st2.nextId ≤ k → some (idOfNat k) ∉ st2.items.map Event.id := by
          intro k hk
          rw [hids2]
          exact hfresh k hk
        have hresolve2 : ∀ kv ∈ m2, ∃ r ∈ st2.items, r.id = kv.2 := by
          intro kv hkv
          obtain ⟨r, hr, hid⟩ := hresolve kv (hm2sub.subset hkv)
          have hmm : kv.2 ∈ st2.items.map Event.id := by
            rw [hids2, ← hid]
            exact List.mem_map_of_mem Event.id hr
          obtain ⟨r', hr', hid'⟩ := List.mem_map.mp hmm
          exact ⟨r', hr', hid'⟩
        have hndk2 : (m2.map Prod.fst).Nodup := ((hm2sub.map Prod.fst).nodup hndk)
        have hndv2 : (m2.map Prod.snd).Nodup := ((hm2sub.map Prod.snd).nodup hndv)
        obtain ⟨st', m', ops', hrec, ⟨tail, htail⟩, hcond⟩ :=
          ih st2 m2 (ops ++ [Op.update ev evd]) hnd2 hfresh2 hresolve2 hndk2 hndv2 hsrc2
        refine ⟨st', m', ops', by rw [hstep]; exact hrec,
          ⟨_, htail.trans (List.append_assoc _ _ _)⟩, fun hns => ?_⟩
        obtain ⟨K1, K2, K3⟩ := hcond hns
        have hnewsplit : newSrc m (e :: rest) = newSrc m2 rest := by
          rw [newSrc, newSrc, List.filter_cons_of_neg (by simp [hal])]
          refine List.filter_congr ?_
          intro x hx
          have hxne : x.id ≠ e.id := by
            intro hc
            refine hsrc1 ?_
            rw [← hc]
            exact List.mem_map_of_mem Event.id hx
          rw [popKey_alookup_ne hpk hxne]
        have hpoint : ∀ r ∈ st.items,
            updFn cfg m2 rest (if r.id = evd.id then evd else r) =
              updFn cfg m (e :: rest) r := by
          intro r hrmem
          by_cases hr : r.id = evd.id
          · rw [if_pos hr]
            have hfind2 : rest.find? (fun e' => decide (alookup e'.id m2 = some evd.id))
                = none := by
              rw [List.find?_eq_none]
              intro e' he'
              simp only [decide_eq_true_eq]
              intro hc
              rw [hevdid] at hc
              have hmem2 : (e'.id, destId) ∈ m := hm2sub.subset (alookup_mem hc)
              have hmem1 : (e.id, destId) ∈ m := alookup_mem hal
              have heq := nodup_map_eq_of_eq hndv hmem2 hmem1 rfl
              have : e'.id = e.id := congrArg Prod.fst heq
              refine hsrc1 ?_
              rw [← this]
              exact List.mem_map_of_mem Event.id he'
            have hevr : ev = r :=
              nodup_map_eq_of_eq hndid hevmem hrmem (by rw [hevid, ← hevdid, ← hr])
            rw [updFn, hfind2, updFn]
            rw [List.find?_cons_of_pos _ (by simp [hal, hr, hevdid])]
            rw [hevd, hevr]
          · rw [if_neg hr]
            have hneg : ¬(decide (alookup e.id m = some r.id) = true) := by
              simp only [hal, decide_eq_true_eq, Option.some.injEq]
              intro hc
              exact hr (by rw [← hc, hevdid])
            have hcong : List.find? (fun x => decide (alookup x.id m2 = some r.id)) rest
                = List.find? (fun x => decide (alookup x.id m = some r.id)) rest := by
              refine find?_congr ?_
              intro x hx
              have hxne : x.id ≠ e.id := by
                intro hc
                refine hsrc1 ?_
                rw [← hc]
                exact List.mem_map_of_mem Event.id hx
              rw [popKey_alookup_ne hpk hxne]
            rw [updFn, updFn, hcong,
              @List.find?_cons_of_neg Event (fun x => decide (alookup x.id m = some r.id))
                e rest hneg]
        refine ⟨?_, ?_, ?_⟩
        · rw [K1, hnewsplit.symm]
          rw [show st2.items = st.items.map (fun x => if x.id = evd.id then evd else x)
            from rfl]
          rw [List.map_map]
          rw [show st2.nextId = st.nextId from rfl]
          refine congrArg (fun l => l ++ mkNews cfg st.nextId (newSrc m (e :: rest))) ?_
          refine List.map_congr_left ?_
          intro r hr
          exact hpoint r hr
        · rw [K2, hnewsplit, show st2.nextId = st.nextId from rfl]
        · rw [K3, popKey_eq_filter hndk hpk, List.filter_filter]
          refine List.filter_congr ?_
          intro kv hkv
          simp only [List.map_cons, List.mem_cons, not_or]
          by_cases h1 : kv.1 = e.id <;> by_cases h2 : kv.1 ∈ rest.map Event.id <;>
            simp [h1, h2]

/-- When every source event's index entry points at a stored record that
already carries exactly the computed patch — and the index holds nothing
else — the processing loop returns the store unchanged, consumes the
whole index, and issues only updates that rewrite a record to itself. -/
theorem processSrc_noop (cfg : SyncConfig) :
    ∀ (src : List Event) (st : Store) (m : List (Option String × Option String))
      (ops : List Op),
      (st.items.map Event.id).Nodup →
      (src.map Event.id).Nodup →
      (∀ kv ∈ m, kv.1 ∈ src.map Event.id) →
      (m.map Prod.fst).Nodup →
      (∀ e ∈ src, ∃ v, alookup e.id m = some v ∧
        ∃ r, st.get_event v = some r ∧ r.update (computeDetails cfg e) = r) →
      ∃ upds, processSrc cfg src st m ops = some (st, [], ops ++ upds) ∧
        ∀ op ∈ upds, ∃ r, op = Op.update r r := by
  intro src
  induction src with
  | nil =>
    intro st m ops _ _ hkeys _ _
    have hm : m = [] := by
      cases m with
      | nil => rfl
      | cons kv rest => exact absurd (hkeys kv (List.mem_cons_self kv rest)) (by simp)
    refine ⟨[], ?_, by simp⟩
    rw [hm]
    simp [processSrc]
  | cons e rest ih =>
    intro st m ops hnd hsrc hkeys hndk hcov
    rw [List.map_cons, List.nodup_cons] at hsrc
    obtain ⟨hsrc1, hsrc2⟩ := hsrc
    obtain ⟨v, hv, r, hgr, hnoop⟩ := hcov e (List.mem_cons_self e rest)
    rcases hpk : popKey e.id m with _ | ⟨destId, m2⟩
    · rw [popKey_eq_none] at hpk
      rw [hpk] at hv
      exact absurd hv (by simp)
    · have halp := popKey_some_alookup hpk
      rw [halp] at hv
      have hvd : destId = v := Option.some.inj hv
      rw [← hvd] at hgr
      obtain ⟨hrmem, hrid⟩ := get_event_mem hgr
      have hupd_eq : st.update_event r = st := by
        refine update_event_self ?_
        intro x hx hxi
        exact nodup_map_eq_of_eq hnd hx hrmem hxi
      have hm2 : m2 = m.filter (fun kv => decide (kv.1 ≠ e.id)) := popKey_eq_filter hndk hpk
      have hkeys2 : ∀ kv ∈ m2, kv.1 ∈ rest.map Event.id := by
        intro kv hkv
        rw [hm2] at hkv
        obtain ⟨hkvm, hkvp⟩ := List.mem_filter.mp hkv
        have hin := hkeys kv hkvm
        simp only [List.map_cons, List.mem_cons] at hin
        rcases hin with h1 | h1
        · exact absurd h1 (by simpa using hkvp)
        · exact h1
      have hndk2 : (m2.map Prod.fst).Nodup := ((popKey_sublist hpk).map Prod.fst).nodup hndk
      have hcov2 : ∀ e' ∈ rest, ∃ v', alookup e'.id m2 = some v' ∧
          ∃ r', st.get_event v' = some r' ∧ r'.update (computeDetails cfg e') = r' := by
        intro e' he'
        obtain ⟨v', hv', hrest⟩ := hcov e' (List.mem_cons_of_mem e he')
        refine ⟨v', ?_, hrest⟩
        have hne : e'.id ≠ e.id := by
          intro hc
          refine hsrc1 ?_
          rw [← hc]
          exact List.mem_map_of_mem Event.id he'
        rw [popKey_alookup_ne hpk hne]
        exact hv'
      obtain ⟨upds, hrec, hupds⟩ :=
        ih st m2 (ops ++ [Op.update r r]) hnd hsrc2 hkeys2 hndk2 hcov2
      refine ⟨Op.update r r :: upds, ?_, ?_⟩
      · simp only [processSrc, hpk, hgr, hnoop, hupd_eq]
        rw [hrec]
        simp
      · intro op hop
        rcases List.mem_cons.mp hop with h1 | h1
        · exact ⟨r, h1⟩
        · exact hupds op h1

/-- Destructor for a successful `sync_from` run: the processing loop
succeeded, and the final store and trace are the loop results followed by
the orphan and duplicate deletions. -/
theorem sync_from_destruct {st : Store} {src : List Event} {cfg : SyncConfig} {now : DateTime}
    {st' : Store} {ops : List Op} (h : sync_from st src cfg now = some (st', ops)) :
    ∃ st1 mrest ops1,
      processSrc cfg src st (buildIndex [] [] (st.events (some (syncFilter cfg now)))).1 []
        = some (st1, mrest, ops1) ∧
      st' = (buildIndex [] [] (st.events (some (syncFilter cfg now)))).2.foldl
              (fun s i => s.delete_event i)
              (mrest.foldl (fun s kv => s.delete_event kv.2) st1) ∧
      ops = ops1 ++ mrest.map (fun kv => Op.delete kv.2) ++
              (buildIndex [] [] (st.events (some (syncFilter cfg now)))).2.map Op.delete := by
  simp only [sync_from] at h
  rcases hp : processSrc cfg src st
      (buildIndex [] [] (st.events (some (syncFilter cfg now)))).1 [] with _ | ⟨st1, mrest, ops1⟩
  · rw [hp] at h; exact absurd h (by simp)
  · rw [hp] at h
    simp only [Option.some.injEq, Prod.mk.injEq] at h
    exact ⟨st1, mrest, ops1, rfl, h.1.symm, h.2.symm⟩

/-! ## Characterizing a completed run of `sync_from` -/

theorem events_eq_filter (st : Store) (f : EventFilter) :
    st.events (some f) = st.items.filter f.call := rfl

theorem evs_ids_nodup {st : Store} (cfg : SyncConfig) (now : DateTime) (hwf : st.WF) :
    ((st.events (some (syncFilter cfg now))).map Event.id).Nodup :=
  ((List.filter_sublist st.items).map Event.id).nodup hwf.1

theorem index_map_mem {st : Store} {cfg : SyncConfig} {now : DateTime}
    {kv : Option String × Option String} (h : kv ∈ (step1Index st cfg now).1) :
    ∃ r ∈ st.events (some (syncFilter cfg now)),
      kv = (getMeta r.metadata "src_id", r.id) := by
  rcases buildIndex_map_mem _ _ _ h with h1 | h1
  · simp at h1
  · exact h1

theorem index_dups_mem {st : Store} {cfg : SyncConfig} {now : DateTime}
    {x : Option String} (h : x ∈ (step1Index st cfg now).2) :
    ∃ r ∈ st.events (some (syncFilter cfg now)), x = r.id := by
  rcases buildIndex_dups_mem _ _ _ h with h1 | h1
  · simp at h1
  · exact h1

theorem index_vals_resolve {st : Store} {cfg : SyncConfig} {now : DateTime} :
    ∀ kv ∈ (step1Index st cfg now).1, ∃ r ∈ st.items, r.id = kv.2 := by
  intro kv hkv
  obtain ⟨r, hr, hkveq⟩ := index_map_mem hkv
  refine ⟨r, (List.filter_sublist st.items).subset hr, ?_⟩
  rw [hkveq]

theorem index_keys_nodup (st : Store) (cfg : SyncConfig) (now : DateTime) :
    ((step1Index st cfg now).1.map Prod.fst).Nodup :=
  buildIndex_keys_nodup _ [] [] (by simp)

theorem index_vals_nodup {st : Store} (cfg : SyncConfig) (now : DateTime) (hwf : st.WF) :
    ((step1Index st cfg now).1.map Prod.snd).Nodup :=
  buildIndex_vals_nodup _ [] [] (evs_ids_nodup cfg now hwf) (by simp) (by simp)

theorem index_vals_dups_disjoint {st : Store} (cfg : SyncConfig) (now : DateTime)
    (hwf : st.WF) :
    ∀ x ∈ (step1Index st cfg now).2, ∀ kv ∈ (step1Index st cfg now).1, kv.2 ≠ x :=
  buildIndex_vals_dups_disjoint _ [] [] (evs_ids_nodup cfg now hwf)
    (by simp) (by simp) (by simp)

/-- Every identifier deleted in Step 4 is the identifier of some record
of the original store. -/
theorem runDeletedIds_resolve {st : Store} {src : List Event} {cfg : SyncConfig}
    {now : DateTime} :
    ∀ x ∈ runDeletedIds st src cfg now, ∃ r ∈ st.items, x = r.id := by
  intro x hx
  rcases List.mem_append.mp hx with h1 | h1
  · obtain ⟨kv, hkv, hsnd⟩ := List.mem_map.mp h1
    obtain ⟨r, hr, hid⟩ := index_vals_resolve kv (List.mem_filter.mp hkv).1
    exact ⟨r, hr, by rw [← hsnd, hid]⟩
  · obtain ⟨r, hr, hid⟩ := index_dups_mem h1
    exact ⟨r, (List.filter_sublist st.items).subset hr, hid⟩

/-- The exact contents of the destination after a completed, never
skipping run on pairwise-distinct source identifiers: the original
records, each patched by its matched source event, plus the fresh records
for the new source events, minus the records whose identifiers Step 4
deleted; and the counter advanced once per fresh record. -/
theorem sync_from_shape (st : Store) (src : List Event) (cfg : SyncConfig) (now : DateTime)
    (s1 : Store) (ops1 : List Op)
    (hwf : st.WF) (hids : (src.map Event.id).Nodup)
    (h1 : sync_from st src cfg now = some (s1, ops1))
    (hnoskip : ∀ op ∈ ops1, op.isSkip = false) :
    s1.items = (st.items.map (updFn cfg (step1Index st cfg now).1 src)
        ++ mkNews cfg st.nextId (newSrc (step1Index st cfg now).1 src)).filter
        (fun r => decide (r.id ∉ runDeletedIds st src cfg now)) ∧
    s1.nextId = st.nextId + (newSrc (step1Index st cfg now).1 src).length := by
  obtain ⟨st1, mrest, ops1', hproc, hst, hops⟩ := sync_from_destruct h1
  rw [show buildIndex [] [] (st.events (some (syncFilter cfg now)))
      = step1Index st cfg now from rfl] at hproc hst hops
  obtain ⟨st1', m1', ops1'', hproc', hext, hcond⟩ :=
    processSrc_char cfg src st (step1Index st cfg now).1 [] hwf.1 hwf.2
      index_vals_resolve (index_keys_nodup st cfg now) (index_vals_nodup cfg now hwf) hids
  have hsame := hproc'.symm.trans hproc
  simp only [Option.some.injEq, Prod.mk.injEq] at hsame
  obtain ⟨hA, hB, hC⟩ := hsame
  rw [← hA, ← hB] at hst
  rw [← hC, ← hB] at hops
  have hns' : ∀ op ∈ ops1'', op.isSkip = false := by
    intro op hop
    refine hnoskip op ?_
    rw [hops]
    exact List.mem_append_left _ (List.mem_append_left _ hop)
  obtain ⟨K1, K2, K3⟩ := hcond hns'
  have hsndfold : m1'.foldl (fun s kv => s.delete_event kv.2) st1'
      = (m1'.map Prod.snd).foldl (fun s i => s.delete_event i) st1' :=
    (List.foldl_map Prod.snd (fun s i => s.delete_event i) m1' st1').symm
  constructor
  · rw [hst, hsndfold, foldl_delete_items, foldl_delete_items, K1, K3]
    rw [List.filter_filter]
    refine List.filter_congr ?_
    intro r _
    simp only [runDeletedIds, List.mem_append, not_or, Bool.decide_and]
    rw [Bool.and_comm]
  · rw [hst]
    rw [foldl_delete_nextId, hsndfold, foldl_delete_nextId]
    exact K2

/-- A completed, never-skipping run leaves a well-formed store
well-formed. -/
theorem sync_from_wf (st : Store) (src : List Event) (cfg : SyncConfig) (now : DateTime)
    (s1 : Store) (ops1 : List Op)
    (hwf : st.WF) (hids : (src.map Event.id).Nodup)
    (h1 : sync_from st src cfg now = some (s1, ops1))
    (hnoskip : ∀ op ∈ ops1, op.isSkip = false) : s1.WF := by
  obtain ⟨hitems, hnext⟩ := sync_from_shape st src cfg now s1 ops1 hwf hids h1 hnoskip
  have hbigids : (st.items.map (updFn cfg (step1Index st cfg now).1 src)
      ++ mkNews cfg st.nextId (newSrc (step1Index st cfg now).1 src)).map Event.id
      = st.items.map Event.id
        ++ (mkNews cfg st.nextId (newSrc (step1Index st cfg now).1 src)).map Event.id := by
    rw [List.map_append, List.map_map]
    congr 1
    refine List.map_congr_left ?_
    intro r _
    simp only [Function.comp]
    exact updFn_id cfg (step1Index st cfg now).1 src r
  have hbignd : ((st.items.map (updFn cfg (step1Index st cfg now).1 src)
      ++ mkNews cfg st.nextId (newSrc (step1Index st cfg now).1 src)).map Event.id).Nodup := by
    rw [hbigids, List.nodup_append]
    refine ⟨hwf.1, mkNews_ids_nodup cfg _ st.nextId, ?_⟩
    intro x hx
    intro hx2
    obtain ⟨r, hrN, hrid⟩ := List.mem_map.mp hx2
    obtain ⟨k, hk, hridk⟩ := mkNews_ids_lb hrN
    rw [← hrid, hridk] at hx
    exact hwf.2 k hk hx
  have hsub : s1.items.map Event.id
      |>.Sublist ((st.items.map (updFn cfg (step1Index st cfg now).1 src)
        ++ mkNews cfg st.nextId (newSrc (step1Index st cfg now).1 src)).map Event.id) := by
    rw [hitems]
    exact (List.filter_sublist _).map Event.id
  refine ⟨hsub.nodup hbignd, ?_⟩
  intro k hk hmem
  have hmem2 := hsub.subset hmem
  rw [hbigids] at hmem2
  rcases List.mem_append.mp hmem2 with h2 | h2
  · refine hwf.2 k ?_ h2
    rw [hnext] at hk
    omega
  · obtain ⟨r, hrN, hrid⟩ := List.mem_map.mp h2
    obtain ⟨i, hi, hridi, _⟩ := mem_mkNews hrN
    rw [hridi] at hrid
    have hkk := idOfNat_inj (Option.some.inj hrid)
    rw [hnext] at hk
    have hlen := mkNews_length cfg (newSrc (step1Index st cfg now).1 src) st.nextId
    omega

/-- After a completed, never-skipping run on distinct source ids, every
destination record within the sync window carries the computed patch of
some source event, and is either the update of the record its index entry
pointed at (same identifier) or one of the freshly added records. -/
theorem sync_from_members (st : Store) (src : List Event) (cfg : SyncConfig) (now : DateTime)
    (s1 : Store) (ops1 : List Op)
    (hwf : st.WF) (hids : (src.map Event.id).Nodup)
    (h1 : sync_from st src cfg now = some (s1, ops1))
    (hnoskip : ∀ op ∈ ops1, op.isSkip = false) :
    ∀ r ∈ s1.events (some (syncFilter cfg now)), ∃ e ∈ src,
      r.fieldsOf = computeDetails cfg e ∧
      (alookup e.id (step1Index st cfg now).1 = some r.id ∨
        (alookup e.id (step1Index st cfg now).1 = none ∧
          r ∈ mkNews cfg st.nextId (newSrc (step1Index st cfg now).1 src))) := by
  obtain ⟨hitems, hnext⟩ := sync_from_shape st src cfg now s1 ops1 hwf hids h1 hnoskip
  intro r hr
  rw [events_eq_filter] at hr
  obtain ⟨hrs1, hrcall⟩ := List.mem_filter.mp hr
  rw [hitems] at hrs1
  obtain ⟨hrbig, hrkeep⟩ := List.mem_filter.mp hrs1
  rcases List.mem_append.mp hrbig with hmap | hN
  · obtain ⟨r0, hr0mem, hUr0⟩ := List.mem_map.mp hmap
    rcases hfind : src.find?
        (fun e => decide (alookup e.id (step1Index st cfg now).1 = some r0.id)) with _ | e
    · -- untouched original record: it cannot have survived inside the window
      exfalso
      rw [updFn, hfind] at hUr0
      rw [← hUr0] at hrcall hrkeep
      have hr0evs : r0 ∈ st.events (some (syncFilter cfg now)) :=
        List.mem_filter.mpr ⟨hr0mem, hrcall⟩
      have hfl := buildIndex_first_or_dup (st.events (some (syncFilter cfg now))) [] [] r0 hr0evs
      rw [show buildIndex [] [] (st.events (some (syncFilter cfg now)))
          = step1Index st cfg now from rfl] at hfl
      simp only [decide_eq_true_eq] at hrkeep
      rcases hfl with hlk | hdup
      · by_cases hsm : getMeta r0.metadata "src_id" ∈ src.map Event.id
        · obtain ⟨e1, he1, heid⟩ := List.mem_map.mp hsm
          rw [List.find?_eq_none] at hfind
          refine hfind e1 he1 ?_
          simp only [decide_eq_true_eq]
          rw [heid]
          exact hlk
        · refine hrkeep ?_
          rw [runDeletedIds]
          refine List.mem_append_left _ ?_
          refine List.mem_map.mpr ⟨(getMeta r0.metadata "src_id", r0.id), ?_, rfl⟩
          exact List.mem_filter.mpr ⟨alookup_mem hlk, by simpa using hsm⟩
      · refine hrkeep ?_
        rw [runDeletedIds]
        exact List.mem_append_right _ hdup
    · refine ⟨e, List.mem_of_find?_eq_some hfind, ?_, Or.inl ?_⟩
      · rw [updFn, hfind] at hUr0
        rw [← hUr0]
        rfl
      · have hpred := List.find?_some hfind
        simp only [decide_eq_true_eq] at hpred
        rw [updFn, hfind] at hUr0
        rw [← hUr0]
        exact hpred
  · obtain ⟨i, hi, hrid, hrf⟩ := mem_mkNews hN
    have hget := List.get_mem (newSrc (step1Index st cfg now).1 src) i hi
    have hgetsrc : (newSrc (step1Index st cfg now).1 src).get ⟨i, hi⟩ ∈ src :=
      List.mem_of_mem_filter hget
    have hnone : alookup ((newSrc (step1Index st cfg now).1 src).get ⟨i, hi⟩).id
        (step1Index st cfg now).1 = none := by
      have := (List.mem_filter.mp hget).2
      simp only [Option.isNone_iff_eq_none, decide_eq_true_eq] at this
      exact this
    exact ⟨_, hgetsrc, hrf, Or.inr ⟨hnone, hN⟩⟩

/-- After a completed, never-skipping run on distinct source ids whose
transformed records all lie within the sync window, every source event is
represented by a record of the destination window carrying exactly its
computed patch. -/
theorem sync_from_covers (st : Store) (src : List Event) (cfg : SyncConfig) (now : DateTime)
    (s1 : Store) (ops1 : List Op)
    (hwf : st.WF) (hids : (src.map Event.id).Nodup)
    (hwin : ∀ e ∈ src, (syncFilter cfg now).call (Event.ofDetails (computeDetails cfg e)) = true)
    (h1 : sync_from st src cfg now = some (s1, ops1))
    (hnoskip : ∀ op ∈ ops1, op.isSkip = false) :
    ∀ e ∈ src, ∃ r ∈ s1.events (some (syncFilter cfg now)),
      r.fieldsOf = computeDetails cfg e := by
  obtain ⟨hitems, hnext⟩ := sync_from_shape st src cfg now s1 ops1 hwf hids h1 hnoskip
  have hcall : ∀ (r : Event) (e : Event), e ∈ src → r.fieldsOf = computeDetails cfg e →
      (syncFilter cfg now).call r = true := by
    intro r e he hf
    have hfe : r.fieldsOf = (Event.ofDetails (computeDetails cfg e)).fieldsOf := by
      rw [hf]
      rfl
    rw [EventFilter.call_eq_of_fields hfe]
    exact hwin e he
  intro e he
  rcases hlk : alookup e.id (step1Index st cfg now).1 with _ | v
  · -- new source event: its fresh record is present
    have hens : e ∈ newSrc (step1Index st cfg now).1 src :=
      List.mem_filter.mpr ⟨he, by simp [hlk]⟩
    obtain ⟨r, hrN, hrf, k, hk, hrid⟩ := mkNews_mem_of hens
    refine ⟨r, ?_, hrf⟩
    rw [events_eq_filter]
    refine List.mem_filter.mpr ⟨?_, hcall r e he hrf⟩
    rw [hitems]
    refine List.mem_filter.mpr ⟨List.mem_append_right _ hrN, ?_⟩
    simp only [decide_eq_true_eq]
    intro hdel
    obtain ⟨r0, hr0, hid0⟩ := runDeletedIds_resolve _ hdel
    rw [hrid] at hid0
    refine hwf.2 k hk ?_
    rw [hid0]
    exact List.mem_map_of_mem Event.id hr0
  · -- previously synced: the updated record is present
    obtain ⟨r0, hr0evs, hpair⟩ := index_map_mem (alookup_mem hlk)
    have hk1 : e.id = getMeta r0.metadata "src_id" := congrArg Prod.fst hpair
    have hk2 : v = r0.id := congrArg Prod.snd hpair
    have hr0mem : r0 ∈ st.items := (List.filter_sublist st.items).subset hr0evs
    have hsat : decide (alookup e.id (step1Index st cfg now).1 = some r0.id) = true := by
      simp only [decide_eq_true_eq]
      rw [hlk, hk2]
    rcases hfind : src.find?
        (fun e' => decide (alookup e'.id (step1Index st cfg now).1 = some r0.id)) with _ | e''
    · rw [List.find?_eq_none] at hfind
      exact absurd hsat (hfind e he)
    · have hpred := List.find?_some hfind
      simp only [decide_eq_true_eq] at hpred
      have he'' : e'' ∈ src := List.mem_of_find?_eq_some hfind
      have heq : e'' = e := by
        have hm1 : (e''.id, r0.id) ∈ (step1Index st cfg now).1 := alookup_mem hpred
        have hm2 : (e.id, r0.id) ∈ (step1Index st cfg now).1 := by
          rw [← hk2]
          exact hk2 ▸ alookup_mem (by rw [hlk, hk2])
        have hpe := nodup_map_eq_of_eq (index_vals_nodup cfg now hwf) hm1 hm2 rfl
        have hide : e''.id = e.id := congrArg Prod.fst hpe
        exact nodup_map_eq_of_eq hids he'' he hide
      refine ⟨updFn cfg (step1Index st cfg now).1 src r0, ?_, ?_⟩
      · rw [events_eq_filter]
        refine List.mem_filter.mpr ⟨?_, ?_⟩
        · rw [hitems]
          refine List.mem_filter.mpr ⟨List.mem_append_left _
            (List.mem_map_of_mem _ hr0mem), ?_⟩
          simp only [decide_eq_true_eq]
          rw [updFn_id]
          intro hdel
          rcases List.mem_append.mp hdel with hd1 | hd1
          · obtain ⟨kv, hkvf, hkvsnd⟩ := List.mem_map.mp hd1
            obtain ⟨hkvm, hkvpred⟩ := List.mem_filter.mp hkvf
            have hm2 : (e.id, r0.id) ∈ (step1Index st cfg now).1 := by
              rw [← hk2]
              exact alookup_mem hlk
            have hkveq : kv = (e.id, r0.id) :=
              nodup_map_eq_of_eq (index_vals_nodup cfg now hwf) hkvm hm2 hkvsnd
            rw [hkveq] at hkvpred
            simp only [decide_eq_true_eq] at hkvpred
            exact hkvpred (List.mem_map_of_mem Event.id he)
          · have hm2 : (e.id, r0.id) ∈ (step1Index st cfg now).1 := by
              rw [← hk2]
              exact alookup_mem hlk
            exact index_vals_dups_disjoint cfg now hwf _ hd1 _ hm2 rfl
        · refine hcall _ e he ?_
          rw [updFn, hfind, heq]
          rfl
      · rw [updFn, hfind, heq]
        rfl

/-- After a completed, never-skipping run on distinct source ids, two
destination-window records with the same `src_id` are the same record. -/
theorem sync_from_srcid_inj (st : Store) (src : List Event) (cfg : SyncConfig) (now : DateTime)
    (s1 : Store) (ops1 : List Op)
    (hwf : st.WF) (hids : (src.map Event.id).Nodup)
    (h1 : sync_from st src cfg now = some (s1, ops1))
    (hnoskip : ∀ op ∈ ops1, op.isSkip = false) :
    ∀ r1 ∈ s1.events (some (syncFilter cfg now)), ∀ r2 ∈ s1.events (some (syncFilter cfg now)),
      getMeta r1.metadata "src_id" = getMeta r2.metadata "src_id" → r1 = r2 := by
  have hmem := sync_from_members st src cfg now s1 ops1 hwf hids h1 hnoskip
  have hwf1 := sync_from_wf st src cfg now s1 ops1 hwf hids h1 hnoskip
  intro r1 hr1 r2 hr2 hsid
  obtain ⟨e1, he1, hf1, hc1⟩ := hmem r1 hr1
  obtain ⟨e2, he2, hf2, hc2⟩ := hmem r2 hr2
  have hs1 : getMeta r1.metadata "src_id" = e1.id := by
    have hm := congrArg Details.metadata hf1
    rw [show r1.metadata = (computeDetails cfg e1).metadata from hm]
    exact computeDetails_src_id cfg e1
  have hs2 : getMeta r2.metadata "src_id" = e2.id := by
    have hm := congrArg Details.metadata hf2
    rw [show r2.metadata = (computeDetails cfg e2).metadata from hm]
    exact computeDetails_src_id cfg e2
  have heid : e1.id = e2.id := by
    rw [← hs1, ← hs2]
    exact hsid
  have hee : e1 = e2 := nodup_map_eq_of_eq hids he1 he2 heid
  rw [← hee] at hc2
  have hid12 : r1.id = r2.id := by
    rcases hc1 with hl1 | ⟨hn1, hN1⟩ <;> rcases hc2 with hl2 | ⟨hn2, hN2⟩
    · rw [hl1] at hl2
      exact Option.some.inj hl2
    · rw [hl1] at hn2
      exact absurd hn2 (by simp)
    · rw [hl2] at hn1
      exact absurd hn1 (by simp)
    · obtain ⟨i1, hi1, hid1, hf1'⟩ := mem_mkNews hN1
      obtain ⟨i2, hi2, hid2, hf2'⟩ := mem_mkNews hN2
      have hnsnd : ((newSrc (step1Index st cfg now).1 src).map Event.id).Nodup :=
        ((List.filter_sublist src).map Event.id).nodup hids
      have hnsel : (newSrc (step1Index st cfg now).1 src).Nodup := hnsnd.of_map
      have hg1 : ((newSrc (step1Index st cfg now).1 src).get ⟨i1, hi1⟩).id = e1.id := by
        have hdd : computeDetails cfg ((newSrc (step1Index st cfg now).1 src).get ⟨i1, hi1⟩)
            = computeDetails cfg e1 := hf1'.symm.trans hf1
        have hmm : getMeta (computeDetails cfg
              ((newSrc (step1Index st cfg now).1 src).get ⟨i1, hi1⟩)).metadata "src_id"
            = getMeta (computeDetails cfg e1).metadata "src_id" := by rw [hdd]
        rw [computeDetails_src_id, computeDetails_src_id] at hmm
        exact hmm
      have hg2 : ((newSrc (step1Index st cfg now).1 src).get ⟨i2, hi2⟩).id = e1.id := by
        have hdd : computeDetails cfg ((newSrc (step1Index st cfg now).1 src).get ⟨i2, hi2⟩)
            = computeDetails cfg e2 := hf2'.symm.trans hf2
        have hmm : getMeta (computeDetails cfg
              ((newSrc (step1Index st cfg now).1 src).get ⟨i2, hi2⟩)).metadata "src_id"
            = getMeta (computeDetails cfg e2).metadata "src_id" := by rw [hdd]
        rw [computeDetails_src_id, computeDetails_src_id] at hmm
        rw [hmm, ← hee]
      have hgel : (newSrc (step1Index st cfg now).1 src).get ⟨i1, hi1⟩
          = (newSrc (step1Index st cfg now).1 src).get ⟨i2, hi2⟩ :=
        nodup_map_eq_of_eq hnsnd (List.get_mem _ i1 hi1) (List.get_mem _ i2 hi2)
          (by rw [hg1, hg2])
      have hfin : (⟨i1, hi1⟩ : Fin (newSrc (step1Index st cfg now).1 src).length)
          = ⟨i2, hi2⟩ := hnsel.get_inj_iff.mp hgel
      have hii : i1 = i2 := by
        injection hfin
      rw [hid1, hid2, hii]
  refine nodup_map_eq_of_eq hwf1.1 ?_ ?_ hid12
  · rw [events_eq_filter] at hr1
    exact (List.mem_filter.mp hr1).1
  · rw [events_eq_filter] at hr2
    exact (List.mem_filter.mp hr2).1

/-- A destination in reconciled shape is a fixed point: when every
window record carries the patch of some source event, every source event
is represented, `src_id` determines the record, and the store is
well-formed with distinct source ids, a run returns the store unchanged
and issues only self-updates. -/
theorem sync_from_fixed_point (s1 : Store) (src : List Event) (cfg : SyncConfig)
    (now : DateTime)
    (hwf1 : s1.WF)
    (hids : (src.map Event.id).Nodup)
    (hPa : ∀ r ∈ s1.events (some (syncFilter cfg now)), ∃ e ∈ src,
      r.fieldsOf = computeDetails cfg e)
    (hPb : ∀ e ∈ src, ∃ r ∈ s1.events (some (syncFilter cfg now)),
      r.fieldsOf = computeDetails cfg e)
    (hinj : ∀ r1 ∈ s1.events (some (syncFilter cfg now)),
      ∀ r2 ∈ s1.events (some (syncFilter cfg now)),
      getMeta r1.metadata "src_id" = getMeta r2.metadata "src_id" → r1 = r2) :
    ∃ ops2, sync_from s1 src cfg now = some (s1, ops2) ∧
      ∀ op ∈ ops2, ∃ r, op = Op.update r r := by
  have hsrcid : ∀ r ∈ s1.events (some (syncFilter cfg now)), ∃ e ∈ src,
      getMeta r.metadata "src_id" = e.id ∧ r.fieldsOf = computeDetails cfg e := by
    intro r hr
    obtain ⟨e, he, hf⟩ := hPa r hr
    refine ⟨e, he, ?_, hf⟩
    have hm := congrArg Details.metadata hf
    rw [show r.metadata = (computeDetails cfg e).metadata from hm]
    exact computeDetails_src_id cfg e
  have hLnodup : (s1.events (some (syncFilter cfg now))).Nodup :=
    (((List.filter_sublist s1.items).map Event.id).nodup hwf1.1).of_map
  have hmapnd : ((s1.events (some (syncFilter cfg now))).map
      (fun r => getMeta r.metadata "src_id")).Nodup := by
    refine List.Nodup.map_on ?_ hLnodup
    intro x hx y hy hxy
    exact hinj x hx y hy hxy
  have hbi : buildIndex [] [] (s1.events (some (syncFilter cfg now)))
      = ((s1.events (some (syncFilter cfg now))).map
          (fun r => (getMeta r.metadata "src_id", r.id)), []) := by
    rw [buildIndex_append_fresh _ [] [] (fun r _ => rfl) hmapnd]
    rw [List.nil_append]
  have hkeys : ∀ kv ∈ (s1.events (some (syncFilter cfg now))).map
      (fun r => (getMeta r.metadata "src_id", r.id)), kv.1 ∈ src.map Event.id := by
    intro kv hkv
    obtain ⟨r, hr, hkveq⟩ := List.mem_map.mp hkv
    obtain ⟨e, he, hsid, _⟩ := hsrcid r hr
    rw [← hkveq]
    rw [show (getMeta r.metadata "src_id", r.id).1 = getMeta r.metadata "src_id" from rfl, hsid]
    exact List.mem_map_of_mem Event.id he
  have hkeysnd : (((s1.events (some (syncFilter cfg now))).map
      (fun r => (getMeta r.metadata "src_id", r.id))).map Prod.fst).Nodup := by
    rw [List.map_map]
    exact hmapnd
  have hcov : ∀ e ∈ src, ∃ v, alookup e.id ((s1.events (some (syncFilter cfg now))).map
      (fun r => (getMeta r.metadata "src_id", r.id))) = some v ∧
      ∃ r, s1.get_event v = some r ∧ r.update (computeDetails cfg e) = r := by
    intro e he
    obtain ⟨rb, hrb, hrbf⟩ := hPb e he
    have hrbsid : getMeta rb.metadata "src_id" = e.id := by
      have hm := congrArg Details.metadata hrbf
      rw [show rb.metadata = (computeDetails cfg e).metadata from hm]
      exact computeDetails_src_id cfg e
    rw [alookup_map_pair]
    rcases hfind : (s1.events (some (syncFilter cfg now))).find?
        (fun r => decide (getMeta r.metadata "src_id" = e.id)) with _ | rf
    · rw [List.find?_eq_none] at hfind
      exact absurd (by simp [hrbsid]) (hfind rb hrb)
    · have hrfmem := List.mem_of_find?_eq_some hfind
      have hrfsid := List.find?_some hfind
      simp only [decide_eq_true_eq] at hrfsid
      have hrfeq : rf = rb := hinj rf hrfmem rb hrb (by rw [hrfsid, hrbsid])
      refine ⟨rf.id, by rw [hfind]; rfl, rf, ?_, ?_⟩
      · refine get_event_of_mem hwf1.1 ?_
        rw [events_eq_filter] at hrfmem
        exact (List.mem_filter.mp hrfmem).1
      · refine Event.update_self ?_
        rw [hrfeq]
        exact hrbf
  obtain ⟨upds, heq, hupds⟩ := processSrc_noop cfg src s1
    ((s1.events (some (syncFilter cfg now))).map
      (fun r => (getMeta r.metadata "src_id", r.id))) []
    hwf1.1 hids hkeys hkeysnd hcov
  refine ⟨upds, ?_, hupds⟩
  simp only [sync_from, hbi]
  rw [heq]
  simp

/-- Two computed patches with equal metadata come from source events
with equal identifiers (the `src_id` entry pins the id down). -/
theorem patchMeta_id_eq {cfg : SyncConfig} {e1 e2 : Event}
    (h : (computeDetails cfg e1).metadata = (computeDetails cfg e2).metadata) :
    e1.id = e2.id := by
  rw [computeDetails_metadata, computeDetails_metadata] at h
  simp only [List.cons.injEq, Prod.mk.injEq, and_true, true_and] at h
  exact h

/-- Among the freshly created records, exactly one carries the computed
metadata of a given new source event (when the new source events have
pairwise distinct identifiers). -/
theorem mkNews_filter_single {cfg : SyncConfig} :
    ∀ {ns : List Event} {n : Nat} {e : Event}, (ns.map Event.id).Nodup → e ∈ ns →
      ∃ r, (mkNews cfg n ns).filter
          (fun x => decide (x.metadata = (computeDetails cfg e).metadata)) = [r] ∧
        r.fieldsOf = computeDetails cfg e ∧ ∃ k, n ≤ k ∧ r.id = some (idOfNat k) := by
  intro ns
  induction ns with
  | nil =>
    intro n e _ hmem
    simp at hmem
  | cons x rest ih =>
    intro n e hnd hmem
    rw [List.map_cons, List.nodup_cons] at hnd
    rw [mkNews, List.filter_cons]
    rcases List.mem_cons.mp hmem with rfl | h1
    · have htail : (mkNews cfg (n + 1) rest).filter
          (fun y => decide (y.metadata = (computeDetails cfg e).metadata)) = [] := by
        rw [List.filter_eq_nil_iff]
        intro y hy hcontra
        rw [decide_eq_true_eq] at hcontra
        obtain ⟨i, hilt, hid2, hf2⟩ := mem_mkNews hy
        have hym : y.metadata = (computeDetails cfg (rest.get ⟨i, hilt⟩)).metadata :=
          congrArg Details.metadata hf2
        have hme : (computeDetails cfg (rest.get ⟨i, hilt⟩)).metadata
            = (computeDetails cfg e).metadata := by
          rw [← hym]
          exact hcontra
        have hide : (rest.get ⟨i, hilt⟩).id = e.id := patchMeta_id_eq hme
        refine hnd.1 ?_
        rw [← hide]
        exact List.mem_map_of_mem Event.id (List.get_mem rest i hilt)
      have hmean : (({ Event.ofDetails (computeDetails cfg e) with
          id := some (idOfNat n) } : Event)).metadata = (computeDetails cfg e).metadata := rfl
      rw [if_pos (decide_eq_true hmean), htail]
      exact ⟨_, rfl, rfl, n, le_rfl, rfl⟩
    · have hne : x.id ≠ e.id := by
        intro hxe
        refine hnd.1 ?_
        rw [hxe]
        exact List.mem_map_of_mem Event.id h1
      have hcond : ¬ (decide (({ Event.ofDetails (computeDetails cfg x) with
          id := some (idOfNat n) } : Event).metadata
            = (computeDetails cfg e).metadata) = true) := by
        rw [decide_eq_true_eq]
        intro hcontra
        have hm2 : (computeDetails cfg x).metadata = (computeDetails cfg e).metadata := hcontra
        exact hne (patchMeta_id_eq hm2)
      rw [if_neg hcond]
      obtain ⟨r, hfl, hfr, k, hk, hid⟩ := ih hnd.2 h1
      exact ⟨r, hfl, hfr, k, by omega, hid⟩

/-! ## Claim C1 — idempotence of reconciliation -/

/-- Counterexample to claim C1 as stated for every store, source and
config: with two source events sharing the id `x`, the first run on an
empty destination persists two records, and an immediate second run with
the same unchanged source and config deletes one of them — the
destination set changes and the second run makes a `delete_event`
call. -/
theorem claim_C1_counterexample :
    sync_from emptyStore [dupIdSrcA, dupIdSrcB] winCfg now0
      = some (runOneStore, runOneOps) ∧
    sync_from runOneStore [dupIdSrcA, dupIdSrcB] winCfg now0
      = some (runTwoStore, runTwoOps) ∧
    runTwoStore ≠ runOneStore ∧
    Op.delete (some (idOfNat 1)) ∈ runTwoOps := by
  refine ⟨by decide, by decide, by decide, by decide⟩

/-- Claim C1, amended: when the first run starts from a well-formed
store, the source events carry pairwise distinct identifiers and all
fall inside the sync window, and the first run completes while
persisting every insertion (no skip), an immediate second run with the
same source sequence and config returns the destination store unchanged
and performs only self-updates: no `add_event`, no `delete_event`, and
every `update_event` patches a record with its own current fields. -/
theorem claim_C1_idempotent_amended (st : Store) (src : List Event) (cfg : SyncConfig)
    (now : DateTime) (s1 : Store) (ops1 : List Op)
    (hwf : st.WF) (hids : (src.map Event.id).Nodup)
    (hwin : ∀ e ∈ src, (syncFilter cfg now).call (Event.ofDetails (computeDetails cfg e)) = true)
    (h1 : sync_from st src cfg now = some (s1, ops1))
    (hnoskip : ∀ op ∈ ops1, op.isSkip = false) :
    ∃ ops2, sync_from s1 src cfg now = some (s1, ops2) ∧
      ∀ op ∈ ops2, ∃ r, op = Op.update r r := by
  have hwf1 := sync_from_wf st src cfg now s1 ops1 hwf hids h1 hnoskip
  have hPa : ∀ r ∈ s1.events (some (syncFilter cfg now)), ∃ e ∈ src,
      r.fieldsOf = computeDetails cfg e := by
    intro r hr
    obtain ⟨e, he, hf, _⟩ :=
      sync_from_members st src cfg now s1 ops1 hwf hids h1 hnoskip r hr
    exact ⟨e, he, hf⟩
  exact sync_from_fixed_point s1 src cfg now hwf1 hids hPa
    (sync_from_covers st src cfg now s1 ops1 hwf hids hwin h1 hnoskip)
    (sync_from_srcid_inj st src cfg now s1 ops1 hwf hids h1 hnoskip)

/-- The amended claim C1 at a concrete input: the source event
`dupIdSrcA` synced into an empty destination, then re-synced against the
resulting one-record store. -/
theorem claim_C1_witness :
    ∃ ops2, sync_from singleRunStore [dupIdSrcA] winCfg now0 = some (singleRunStore, ops2) ∧
      ∀ op ∈ ops2, ∃ r, op = Op.update r r :=
  claim_C1_idempotent_amended emptyStore [dupIdSrcA] winCfg now0 singleRunStore singleRunOps
    ⟨by decide, fun k _ => List.not_mem_nil _⟩
    (by decide) (by decide) (by decide) (by decide)

/-! ## Claim C2 — filter composition -/

/-- Claim C2: an event passes an `EventFilter` iff it satisfies every
individually-specified bound.  This fails on the code: a filter whose
only constraint is `weekday = monday` rejects an event that starts on a
Monday (and so satisfies every specified bound, witnessed by
`specEventFilterPass`), because `EventFilter.__call__` compares the
enum member against the uninvoked `event.start.weekday` method. -/
theorem claim_C2_weekday_filter_divergence :
    EventFilter.call mondayFilter mondayEvent = false ∧
    specEventFilterPass mondayFilter mondayEvent = true := by
  constructor <;> decide

/-! ## Claim C3 — orphan cleanup -/

/-- Claim C3: a destination record indexed in Step 1 (its
`metadata.src_calendar` equals `config.src_calendar` and it lies within
the sync window) whose `metadata.src_id` is not the identifier of any
source event is deleted, by its destination identifier, by the end of a
completed `sync_from` run. -/
theorem claim_C3_orphan_cleanup (st : Store) (src : List Event) (cfg : SyncConfig)
    (now : DateTime) (st' : Store) (ops : List Op) (r : Event)
    (h : sync_from st src cfg now = some (st', ops))
    (hmem : r ∈ st.items)
    (htag : getMeta r.metadata "src_calendar" = some cfg.src_calendar)
    (hws : (syncWindowStart cfg now).le r.start = true)
    (hwe : r.end_.le (syncWindowEnd cfg now) = true)
    (hnosrc : getMeta r.metadata "src_id" ∉ src.map Event.id) :
    Op.delete r.id ∈ ops := by
  have hcall : (syncFilter cfg now).call r = true := by
    simp only [EventFilter.call, syncFilter, weekdayCheck, Bool.and_eq_true]
    refine ⟨⟨⟨hws, hwe⟩, trivial⟩, ?_⟩
    by_cases hc : cfg.src_calendar = ""
    · simp [hc]
    · simp [hc, htag]
  have hevs : r ∈ st.events (some (syncFilter cfg now)) :=
    List.mem_filter.mpr ⟨hmem, hcall⟩
  obtain ⟨st1, mrest, ops1, hproc, hst, hops⟩ := sync_from_destruct h
  rcases buildIndex_first_or_dup _ [] [] r hevs with hfirst | hdup
  · have hentry : (getMeta r.metadata "src_id", r.id) ∈
        (buildIndex [] [] (st.events (some (syncFilter cfg now)))).1 := alookup_mem hfirst
    have hin : (getMeta r.metadata "src_id", r.id) ∈ mrest :=
      processSrc_keeps hproc hentry hnosrc
    rw [hops]
    refine List.mem_append_left _ (List.mem_append_right _ ?_)
    exact List.mem_map.mpr ⟨_, hin, rfl⟩
  · rw [hops]
    exact List.mem_append_right _ (List.mem_map.mpr ⟨r.id, hdup, rfl⟩)

/-- Witness for claim C3: the store holding only the tagged record with
source id `gone`, synced against an empty source, deletes it. -/
theorem claim_C3_witness :
    Op.delete (some (idOfNat 0)) ∈ ([Op.delete (some (idOfNat 0))] : List Op) :=
  claim_C3_orphan_cleanup orphanStore [] winCfg now0 ⟨[], 1⟩
    [Op.delete (some (idOfNat 0))] orphanRecord (by decide) (by decide) (by decide)
    (by decide) (by decide) (by decide)

/-! ## Claim C4 — duplicate collapse -/

/-- Claim C4: over the Step-1 enumeration, the mapping keeps, for each
`src_id`, exactly the first-seen destination identifier; every
destination record preceded by one with the same `src_id` has its
identifier recorded as a duplicate; and every recorded duplicate is
deleted by the end of the run, whether or not its `src_id` still appears
in the source. -/
theorem claim_C4_duplicate_collapse (st : Store) (src : List Event) (cfg : SyncConfig)
    (now : DateTime) (st' : Store) (ops : List Op)
    (h : sync_from st src cfg now = some (st', ops)) :
    (∀ k, alookup k (buildIndex [] [] (st.events (some (syncFilter cfg now)))).1 =
      ((st.events (some (syncFilter cfg now))).find?
        (fun r => decide (getMeta r.metadata "src_id" = k))).map Event.id) ∧
    (∀ l1 r l2, st.events (some (syncFilter cfg now)) = l1 ++ r :: l2 →
      (∃ r' ∈ l1, getMeta r'.metadata "src_id" = getMeta r.metadata "src_id") →
      r.id ∈ (buildIndex [] [] (st.events (some (syncFilter cfg now)))).2) ∧
    (∀ x ∈ (buildIndex [] [] (st.events (some (syncFilter cfg now)))).2,
      Op.delete x ∈ ops) := by
  obtain ⟨st1, mrest, ops1, hproc, hst, hops⟩ := sync_from_destruct h
  refine ⟨fun k => buildIndex_lookup_first _ [] [] rfl, ?_, ?_⟩
  · intro l1 r l2 hsplit hseen
    rw [hsplit]
    exact buildIndex_dup_of_seen l1 r l2 [] [] (Or.inl hseen)
  · intro x hx
    rw [hops]
    exact List.mem_append_right _ (List.mem_map.mpr ⟨x, hx, rfl⟩)

/-- Witness for claim C4 on `dupStore`: the second-seen duplicate's
identifier is deleted even though its `src_id` is still in the source. -/
theorem claim_C4_witness :
    Op.delete (some (idOfNat 1)) ∈ dupRunOps :=
  (claim_C4_duplicate_collapse dupStore [dupSrcEvent] winCfg now0 dupRunStore dupRunOps
    (by decide)).2.2 (some (idOfNat 1)) (by decide)

/-! ## Claim C5 — new-record creation with exact provenance metadata -/

/-- Counterexample to claim C5 as stated: the source event `srcAbc` has
never been synced (its identifier is absent from the Step-1 index), yet
after the run the destination contains no record at all carrying the
computed metadata — `has_event` found the untagged look-alike record
`untaggedRecord` and the insertion was skipped. -/
theorem claim_C5_counterexample :
    alookup srcAbc.id (step1Index untaggedStore winCfg now0).1 = none ∧
    sync_from untaggedStore [srcAbc] winCfg now0
      = some (untaggedStore, [Op.skip (Event.ofDetails (computeDetails winCfg srcAbc))]) ∧
    (untaggedStore.items.filter
      (fun x => decide (x.metadata = (computeDetails winCfg srcAbc).metadata))).length = 0 := by
  refine ⟨by decide, by decide, by decide⟩

/-- Claim C5, amended: for a completed, never-skipping run from a
well-formed store with pairwise-distinct source identifiers, a source
event `e` whose identifier is absent from the Step-1 index and whose
computed two-key metadata `{src_calendar: config.src_calendar, src_id:
e.id}` no existing destination record already carries ends up with
exactly one destination record bearing exactly that metadata, and that
record's non-`id` fields are exactly the computed patch (any metadata the
source event carried is discarded). -/
theorem claim_C5_new_record_amended (st : Store) (src : List Event) (cfg : SyncConfig)
    (now : DateTime) (s1 : Store) (ops1 : List Op) (e : Event)
    (hwf : st.WF) (hids : (src.map Event.id).Nodup)
    (he : e ∈ src)
    (hnew : alookup e.id (step1Index st cfg now).1 = none)
    (hmeta : ∀ r ∈ st.items, r.metadata ≠ (computeDetails cfg e).metadata)
    (h1 : sync_from st src cfg now = some (s1, ops1))
    (hnoskip : ∀ op ∈ ops1, op.isSkip = false) :
    ∃ r, s1.items.filter
        (fun x => decide (x.metadata = (computeDetails cfg e).metadata)) = [r] ∧
      r.fieldsOf = computeDetails cfg e := by
  obtain ⟨hitems, hnext⟩ := sync_from_shape st src cfg now s1 ops1 hwf hids h1 hnoskip
  have hens : e ∈ newSrc (step1Index st cfg now).1 src :=
    List.mem_filter.mpr ⟨he, by simp [hnew]⟩
  have hnsnd : ((newSrc (step1Index st cfg now).1 src).map Event.id).Nodup :=
    ((List.filter_sublist src).map Event.id).nodup hids
  obtain ⟨r, hfil, hfr, k, hk, hid⟩ :=
    @mkNews_filter_single cfg (newSrc (step1Index st cfg now).1 src) st.nextId e hnsnd hens
  refine ⟨r, ?_, hfr⟩
  rw [hitems, List.filter_filter, List.filter_append]
  have hmapnil : (st.items.map (updFn cfg (step1Index st cfg now).1 src)).filter
      (fun a => decide (a.metadata = (computeDetails cfg e).metadata) &&
        decide (a.id ∉ runDeletedIds st src cfg now)) = [] := by
    rw [List.filter_eq_nil_iff]
    intro x hx hcontra
    rw [Bool.and_eq_true] at hcontra
    obtain ⟨hPx0, _⟩ := hcontra
    rw [decide_eq_true_eq] at hPx0
    obtain ⟨r0, hr0, hU⟩ := List.mem_map.mp hx
    rw [updFn] at hU
    rcases hfind : src.find?
        (fun e2 => decide (alookup e2.id (step1Index st cfg now).1 = some r0.id)) with _ | e2
    · rw [hfind] at hU
      rw [← hU] at hPx0
      exact hmeta r0 hr0 hPx0
    · rw [hfind] at hU
      rw [← hU] at hPx0
      have hPm : (computeDetails cfg e2).metadata = (computeDetails cfg e).metadata := hPx0
      have hide : e2.id = e.id := patchMeta_id_eq hPm
      have he2 : e2 ∈ src := List.mem_of_find?_eq_some hfind
      have hee : e2 = e := nodup_map_eq_of_eq hids he2 he hide
      have hpred := List.find?_some hfind
      simp only [decide_eq_true_eq] at hpred
      rw [hee] at hpred
      rw [hpred] at hnew
      exact Option.noConfusion hnew
  have hnews : (mkNews cfg st.nextId (newSrc (step1Index st cfg now).1 src)).filter
      (fun a => decide (a.metadata = (computeDetails cfg e).metadata) &&
        decide (a.id ∉ runDeletedIds st src cfg now)) = [r] := by
    rw [← hfil]
    refine List.filter_congr ?_
    intro x hx
    have hkeep : decide (x.id ∉ runDeletedIds st src cfg now) = true := by
      simp only [decide_eq_true_eq]
      intro hdel
      obtain ⟨k2, hk2, hid2⟩ := mkNews_ids_lb hx
      obtain ⟨r0, hr0, hid0⟩ := runDeletedIds_resolve _ hdel
      rw [hid2] at hid0
      refine hwf.2 k2 hk2 ?_
      rw [hid0]
      exact List.mem_map_of_mem Event.id hr0
    rw [hkeep, Bool.and_true]
  rw [hmapnil, hnews, List.nil_append]

/-- The amended claim C5 at a concrete input: syncing the never-synced
`dupIdSrcA` into an empty destination leaves exactly one record carrying
its computed metadata and patch fields. -/
theorem claim_C5_witness :
    ∃ r, singleRunStore.items.filter
        (fun x => decide (x.metadata = (computeDetails winCfg dupIdSrcA).metadata)) = [r] ∧
      r.fieldsOf = computeDetails winCfg dupIdSrcA :=
  claim_C5_new_record_amended emptyStore [dupIdSrcA] winCfg now0 singleRunStore singleRunOps
    dupIdSrcA ⟨by decide, fun k _ => List.not_mem_nil _⟩ (by decide) (by decide) (by decide)
    (by decide) (by decide) (by decide)

/-! ## Claim C6 — time-of-day override then offset -/

/-- Claim C6: when `config.start_time` is set, the patched `start` is the
source `start` with its time of day replaced (date and timezone
preserved); when `config.start_offset` is also set, the offset is added
after that replacement; and the same holds independently for `end` with
`end_time`/`end_offset`. -/
theorem claim_C6_time_override_then_offset (cfg : SyncConfig) (e : Event) :
    (∀ t, cfg.start_time = some t →
      (cfg.start_offset = none → (computeDetails cfg e).start = e.start.replaceTime t) ∧
      (∀ δ, cfg.start_offset = some δ →
        (computeDetails cfg e).start = (e.start.replaceTime t).addMinutes δ) ∧
      (e.start.replaceTime t).dateOf = e.start.dateOf ∧
      (e.start.replaceTime t).tz = e.start.tz ∧
      (e.start.replaceTime t).timeOfDay = (t.hour.val : Int) * 60 + (t.minute.val : Int)) ∧
    (∀ t, cfg.end_time = some t →
      (cfg.end_offset = none → (computeDetails cfg e).end_ = e.end_.replaceTime t) ∧
      (∀ δ, cfg.end_offset = some δ →
        (computeDetails cfg e).end_ = (e.end_.replaceTime t).addMinutes δ) ∧
      (e.end_.replaceTime t).dateOf = e.end_.dateOf ∧
      (e.end_.replaceTime t).tz = e.end_.tz ∧
      (e.end_.replaceTime t).timeOfDay = (t.hour.val : Int) * 60 + (t.minute.val : Int)) := by
  constructor
  · intro t ht
    refine ⟨?_, ?_, replaceTime_dateOf _ _, replaceTime_tz _ _, replaceTime_timeOfDay _ _⟩
    · intro hoff
      simp [computeDetails, ht, hoff]
    · intro δ hoff
      by_cases hz : δ = 0
      · subst hz
        simp [computeDetails, ht, hoff, addMinutes_zero]
      · simp [computeDetails, ht, hoff, hz]
  · intro t ht
    refine ⟨?_, ?_, replaceTime_dateOf _ _, replaceTime_tz _ _, replaceTime_timeOfDay _ _⟩
    · intro hoff
      simp [computeDetails, ht, hoff]
    · intro δ hoff
      by_cases hz : δ = 0
      · subst hz
        simp [computeDetails, ht, hoff, addMinutes_zero]
      · simp [computeDetails, ht, hoff, hz]

/-- Witness for claim C6 at the spec's example 4: the patched start is
the override-then-offset of the source start, which is 10:30 on the same
day in the same timezone. -/
theorem claim_C6_witness :
    (computeDetails exampleCfg exampleSrcEvent).start =
      (exampleSrcEvent.start.replaceTime ⟨10, 0⟩).addMinutes 30 ∧
    (exampleSrcEvent.start.replaceTime ⟨10, 0⟩).addMinutes 30 = ⟨630, 0⟩ :=
  ⟨((claim_C6_time_override_then_offset exampleCfg exampleSrcEvent).1 ⟨10, 0⟩ rfl).2.1 30 rfl,
   by decide⟩

/-! ## Claim C7 — the `has_event` exact-duplicate guard -/

/-- Claim C7: `has_event(search)` is true iff some stored event within
the calendar day containing `search.start` (midnight through 23:59
inclusive, in `search.start`'s timezone, compared as instants) equals
`search` on the `(title, start, end)` triple — `all_day`, `description`
and `metadata` playing no part. -/
theorem claim_C7_has_event_day_guard (s : Store) (search : Event) :
    s.has_event search = true ↔
      ∃ e ∈ s.items,
        (search.start.floorToDay.instant ≤ e.start.instant ∧
          e.end_.instant ≤ (search.start.floorToDay.replaceTime ⟨23, 59⟩).instant) ∧
        (e.title = search.title ∧ e.start.instant = search.start.instant ∧
          e.end_.instant = search.end_.instant) := by
  simp only [Store.has_event, Store.events, List.any_eq_true, List.mem_filter,
    EventFilter.call, weekdayCheck, Event.matches, DateTime.le, DateTime.deq,
    Bool.and_eq_true, decide_eq_true_eq, Bool.and_true]
  tauto

/-! ## Claim C8 — the falsy first-ordinal weekday -/

/-- Claim C8: a filter whose `weekday` is the ordinal-0 member `sunday`
behaves identically to the same filter with `weekday` unset, on every
event — the falsy check silently disables the constraint. -/
theorem claim_C8_sunday_filter_unset (sc : Option String) (st en : Option DateTime) (e : Event) :
    EventFilter.call ⟨sc, st, en, some .sunday⟩ e = EventFilter.call ⟨sc, st, en, none⟩ e := rfl

/-! ## Claim C9 — read-only store rejection -/

/-- Claim C9: every mutating operation of `StaticCalendar` fails rather
than returning normally, and no store state is changed.  The code slip:
`raise NotImplemented(...)` raises `TypeError` (the `NotImplemented`
constant is not callable) instead of the explicit unsupported-operation
signal `NotImplementedError("StaticCalendars cannot be modified")`. -/
theorem claim_C9_static_calendar_rejects_mutation (c : StaticCalendar) (e ev : Event)
    (d : Details) (i : Option String) :
    c.add_event e = .error (.typeError "NotImplementedType object is not callable") ∧
    c.create_event d = .error (.typeError "NotImplementedType object is not callable") ∧
    c.update_event ev = .error (.typeError "NotImplementedType object is not callable") ∧
    c.delete_event i = .error (.typeError "NotImplementedType object is not callable") :=
  ⟨rfl, rfl, rfl, rfl⟩

/-! ## Claim C10 — a nonzero weekday constraint rejects everything -/

/-- Claim C10: a filter whose `weekday` is any member of nonzero ordinal
(`monday` through `saturday`) rejects every event, whatever day its
`start` falls on: the comparison is against the uninvoked `weekday`
method object, which never equals an enum member. -/
theorem claim_C10_nonzero_weekday_rejects_all (f : EventFilter) (e : Event) (w : Weekday)
    (hw : f.weekday = some w) (hns : w ≠ .sunday) :
    EventFilter.call f e = false := by
  have hwc : weekdayCheck f.weekday = false := by
    rw [hw]
    cases w
    · exact absurd rfl hns
    all_goals rfl
  simp [EventFilter.call, hwc]

/-- Witness for claim C10: the Monday-only filter rejects an event that
does start on a Monday. -/
theorem claim_C10_witness :
    EventFilter.call { weekday := some Weekday.monday } mondayEvent = false :=
  claim_C10_nonzero_weekday_rejects_all _ mondayEvent .monday rfl (by decide)

end CalendarManager
